import Mathlib

/-!
# Verification of the LIMINAL core against its specification

Shallow embedding of the core subsystems of the LIMINAL repository
(`src/liminal-v1/src-tauri/src`): the priority message router
(`router.rs`), the territory/lease manager (`territory.rs`), the
consensus broker (`consensus.rs`) and the append-only ledger
(`ledger/mod.rs`).

Modelling conventions:
* Rust machine integers (`u8`, `u32`, `u64`, `usize`) are modelled as
  `Nat`; where the source uses `saturating_add` the saturation bound is
  modelled explicitly (`satAdd32`, `satAdd64`).
* Rust `f32`/`f64` values (vote weights, token counts, thresholds) are
  modelled as exact rationals `ℚ`; `f32::EPSILON` is the exact rational
  `2⁻²³`.
* `Instant`/`SystemTime` values are modelled as `Nat` (milliseconds) or
  `ℚ` (seconds) time stamps supplied by the caller; `Instant` arithmetic
  that cannot go negative (`elapsed`, `checked_duration_since` +
  `unwrap_or_default`) is truncated `Nat` subtraction.
* `HashMap` fields that the verified code only reads through
  insert/remove/lookup are modelled as association lists with
  replace-on-insert semantics.
* The BLAKE3 hash and serde-JSON serialization are abstracted as
  function parameters (a `CodecM` record); both the writer and the
  verifier use the same codec, exactly as both sides use blake3/serde.
* `territory.rs` is compiled without the optional `spatial-hash`
  feature (no manifest enables it); the `#[cfg(not(feature =
  "spatial-hash"))]` branches are the ones embedded.
-/

namespace Liminal

/-! ## Priority tiers (`router.rs`, `enum Priority`) -/

inductive Priority where
  | info
  | coordinate
  | blocking
  | critical
  | directorOverride
deriving DecidableEq, Repr

/-- `Priority::as_index` -/
def Priority.asIndex : Priority → Nat
  | .info => 0
  | .coordinate => 1
  | .blocking => 2
  | .critical => 3
  | .directorOverride => 4

/-- `Priority::as_str` -/
def Priority.asStr : Priority → String
  | .info => "info"
  | .coordinate => "coordinate"
  | .blocking => "blocking"
  | .critical => "critical"
  | .directorOverride => "directorOverride"

/-- `Priority::token_cost` -/
def Priority.tokenCost : Priority → ℚ
  | .info => 1
  | .coordinate => 5
  | .blocking => 20
  | .critical => 100
  | .directorOverride => 0

/-- `Priority::from_index` -/
def Priority.fromIndex : Nat → Priority
  | 0 => .info
  | 1 => .coordinate
  | 2 => .blocking
  | 3 => .critical
  | _ => .directorOverride

/-- `Priority::boost` -/
def Priority.boost (p : Priority) (levels : Nat) : Priority :=
  Priority.fromIndex (min (p.asIndex + levels) Priority.critical.asIndex)

/-! ## Saturating machine arithmetic -/

def u32Max : Nat := 2 ^ 32 - 1

def u64Max : Nat := 2 ^ 64 - 1

def satAdd32 (a b : Nat) : Nat := min (a + b) u32Max

def satAdd64 (a b : Nat) : Nat := min (a + b) u64Max

/-! ## Hybrid logical clock (`ledger/mod.rs`, `HybridLogicalClock`) -/

structure LogicalClock where
  wallMillis : Nat
  counter : Nat
deriving DecidableEq, Repr

structure HybridLogicalClock where
  lastWall : Nat
  counter : Nat
deriving DecidableEq, Repr

/-- `HybridLogicalClock::default()` -/
def hlcDefault : HybridLogicalClock := ⟨0, 0⟩

/-- `HybridLogicalClock::tick`.  `nowMillis` is the wall clock reading in
milliseconds (already truncated to `u64` by the `min` with `u64::MAX`,
mirroring the `as u64` conversion in the source). -/
def HybridLogicalClock.tick (clock : HybridLogicalClock) (nowMillis : Nat) :
    HybridLogicalClock × LogicalClock :=
  let wallMillis := min nowMillis u64Max
  let next : HybridLogicalClock :=
    if clock.lastWall < wallMillis then
      { lastWall := wallMillis, counter := 0 }
    else
      { clock with counter := satAdd32 clock.counter 1 }
  (next, { wallMillis := next.lastWall, counter := next.counter })

/-- Folding `tick` over a list of wall readings; models a ledger instance
that has performed that sequence of ticks since construction. -/
def tickSeq (clock : HybridLogicalClock) (nows : List Nat) : HybridLogicalClock :=
  nows.foldl (fun c n => (c.tick n).1) clock

/-- Strict lexicographic order on logical clock values. -/
def lexLt (a b : LogicalClock) : Prop :=
  a.wallMillis < b.wallMillis ∨ (a.wallMillis = b.wallMillis ∧ a.counter < b.counter)

instance (a b : LogicalClock) : Decidable (lexLt a b) := by
  unfold lexLt; infer_instance

/-! ## Consensus broker (`consensus.rs`) -/

structure QuorumVote where
  agentId : String
  weight : ℚ
  vote : Bool
deriving DecidableEq, Repr

structure QuorumVector where
  resourceId : String
  threshold : ℚ
  totalWeight : ℚ
  agreeWeight : ℚ
  achieved : Bool
  reason : String
  votes : List QuorumVote
deriving DecidableEq, Repr

structure ConsensusSignal where
  topic : String
  phase : String
  agentId : Option String
  territoryId : Option String
  quorumThreshold : Option ℚ
  payloadDigest : Option String
  vector : Option QuorumVector
deriving DecidableEq, Repr

inductive ConsensusEventM where
  | idle
  | proposal (signal : ConsensusSignal)
  | vote (signal : ConsensusSignal)
  | commit (signal : ConsensusSignal)
deriving DecidableEq, Repr

/-- `f32::EPSILON` as an exact rational (2⁻²³). -/
def f32Epsilon : ℚ := 1 / 2 ^ 23

/-- The weight coercion loop at the top of `record_quorum`:
non-positive weights become `1.0`. -/
def coerceWeight (v : QuorumVote) : QuorumVote :=
  if v.weight ≤ 0 then { v with weight := 1 } else v

/-- `ConsensusBroker::build_signal`; `digest` abstracts the blake3 hex
digest of the serde-serialized vector. -/
def buildSignal (digest : QuorumVector → String) (phase : String)
    (vector : QuorumVector) : ConsensusSignal :=
  { topic := "consensus:" ++ vector.resourceId
    phase := phase
    agentId := none
    territoryId := some vector.resourceId
    quorumThreshold := some vector.threshold
    payloadDigest := some (digest vector)
    vector := some vector }

/-- `ConsensusBroker::record_quorum`.  Returns the `achieved` verdict and
the consensus ledger events appended, in order.  The in-flight mutex and
the metrics update are not part of the value-level behaviour modelled
here. -/
def recordQuorum (digest : QuorumVector → String) (defaultThreshold : ℚ)
    (resourceId : String) (votes : List QuorumVote) (reason : String) :
    Bool × List ConsensusEventM :=
  if votes.isEmpty then (true, [])
  else
    let votes := votes.map coerceWeight
    let totalWeight := (votes.map (fun v => v.weight)).sum
    let agreeWeight := ((votes.filter (fun v => v.vote)).map (fun v => v.weight)).sum
    let threshold := min (max defaultThreshold 0) 1
    let achieved :=
      if f32Epsilon < totalWeight then decide (threshold ≤ agreeWeight / totalWeight)
      else false
    let vector : QuorumVector :=
      { resourceId := resourceId, threshold := threshold, totalWeight := totalWeight
        agreeWeight := agreeWeight, achieved := achieved, reason := reason, votes := votes }
    (achieved,
      [.proposal (buildSignal digest "proposal" vector),
       .vote (buildSignal digest "vote" vector),
       .commit (buildSignal digest "commit" vector)])

/-! ## Token buckets and dispatcher configuration (`router.rs`) -/

/-- `RouterConfig` (the fields consumed by
`DispatcherConfig::from_router_config`).  The three duration fields hold
the result of `as_deref().and_then(parse_duration)` — i.e. the already
parsed duration, `none` when the field is absent or unparsable. -/
structure RouterConfigM where
  tokenBucketCapacity : Option ℚ
  tokenBucketRefillRate : Option ℚ
  tokenBucketInitial : Option ℚ
  agingThreshold : Option Nat
  maxAgingBoosts : Option Nat
  idleBackoff : Option Nat
deriving DecidableEq, Repr

structure DispatcherConfigM where
  agingThreshold : Nat
  maxAgingBoosts : Nat
  idleBackoff : Nat
  tokenCapacity : ℚ
  tokenRefillRate : ℚ
  initialTokens : ℚ
deriving DecidableEq, Repr

/-- `DispatcherConfig::default()` (durations in milliseconds). -/
def dispatcherConfigDefault : DispatcherConfigM :=
  { agingThreshold := 500, maxAgingBoosts := 2, idleBackoff := 5
    tokenCapacity := 200, tokenRefillRate := 60, initialTokens := 200 }

/-- `DispatcherConfig::from_router_config` -/
def DispatcherConfigM.fromRouterConfig (config : Option RouterConfigM) : DispatcherConfigM :=
  let current := dispatcherConfigDefault
  let current : DispatcherConfigM :=
    match config with
    | none => current
    | some cfg =>
      let current :=
        match cfg.tokenBucketCapacity with
        | some capacity => { current with tokenCapacity := capacity }
        | none => current
      let current :=
        match cfg.tokenBucketRefillRate with
        | some refill => { current with tokenRefillRate := refill }
        | none => current
      let current :=
        match cfg.tokenBucketInitial with
        | some initial => { current with initialTokens := initial }
        | none =>
          if cfg.tokenBucketCapacity.isSome then
            { current with initialTokens := current.tokenCapacity }
          else current
      let current :=
        match cfg.agingThreshold with
        | some duration => { current with agingThreshold := duration }
        | none => current
      let current :=
        match cfg.maxAgingBoosts with
        | some boosts => { current with maxAgingBoosts := boosts }
        | none => current
      let current :=
        match cfg.idleBackoff with
        | some duration => { current with idleBackoff := duration }
        | none => current
      current
  if current.tokenCapacity < current.initialTokens then
    { current with initialTokens := current.tokenCapacity }
  else current

/-- `TokenBucket`; `lastRefill` is the `Instant` of the last refill in
seconds. -/
structure TokenBucketM where
  capacity : ℚ
  tokens : ℚ
  refillRate : ℚ
  lastRefill : ℚ
deriving DecidableEq, Repr

/-- `TokenBucket::new` -/
def TokenBucketM.new (capacity refillRate initial : ℚ) (now : ℚ) : TokenBucketM :=
  { capacity := capacity, tokens := min initial capacity
    refillRate := refillRate, lastRefill := now }

/-- `TokenBucket::refill` (lazy refill, clamped to capacity).  `now` is
the current instant in seconds; `elapsed` mirrors
`self.last_refill.elapsed().as_secs_f64()`. -/
def TokenBucketM.refill (b : TokenBucketM) (now : ℚ) : TokenBucketM :=
  let elapsed := now - b.lastRefill
  if 0 < elapsed then
    { b with tokens := min (b.tokens + elapsed * b.refillRate) b.capacity
             lastRefill := now }
  else b

/-- `TokenBucket::try_consume` -/
def TokenBucketM.tryConsume (b : TokenBucketM) (cost : ℚ) (now : ℚ) :
    Bool × TokenBucketM :=
  let b := b.refill now
  if cost ≤ b.tokens then (true, { b with tokens := b.tokens - cost })
  else (false, b)

/-- A dispatcher-driven consume/refill sequence: each element is the
instant of the attempt and the effective priority whose `token_cost` is
consumed (the dispatcher always calls
`bucket.try_consume(effective_priority.token_cost())`). -/
def consumeSeq (b : TokenBucketM) (ops : List (ℚ × Priority)) : TokenBucketM :=
  ops.foldl (fun b op => (b.tryConsume op.2.tokenCost op.1).2) b

/-! ## Router queues and aging (`router.rs`) -/

structure MessageM where
  content : String
  sender : String
  recipient : String
  priority : Priority
deriving DecidableEq, Repr

/-- `QueuedMessage`; instants are `Nat` milliseconds. -/
structure QueuedMessageM where
  message : MessageM
  enqueuedAt : Nat
  effectivePriority : Priority
  agingBoosts : Nat
  retryCount : Nat
  lastAttemptAt : Option Nat
deriving DecidableEq, Repr

/-- `QueuedMessage::new` -/
def QueuedMessageM.new (message : MessageM) (now : Nat) : QueuedMessageM :=
  { message := message, enqueuedAt := now, effectivePriority := message.priority
    agingBoosts := 0, retryCount := 0, lastAttemptAt := none }

/-- `QueuedMessage::eligible_for_boost`; `now - enqueuedAt` models
`self.enqueued_at.elapsed()`. -/
def QueuedMessageM.eligibleForBoost (m : QueuedMessageM) (now threshold maxBoosts : Nat) : Bool :=
  decide (m.agingBoosts < maxBoosts) && decide (threshold ≤ now - m.enqueuedAt)

/-- The body of the boost branch of `apply_aging`:
`queued.effective_priority = queued.effective_priority.boost(1);
queued.aging_boosts += 1`. -/
def boostMsg (m : QueuedMessageM) : QueuedMessageM :=
  { m with effectivePriority := m.effectivePriority.boost 1
           agingBoosts := m.agingBoosts + 1 }

/-- Remaining boost capacity of one entry (termination measure helper). -/
def msgPotential (maxBoosts : Nat) (m : QueuedMessageM) : Nat :=
  maxBoosts - m.agingBoosts

/-- Remaining boost capacity of a queue (termination measure helper). -/
def queuePotential (maxBoosts : Nat) (q : List QueuedMessageM) : Nat :=
  (q.map (msgPotential maxBoosts)).sum

theorem queuePotential_append (maxBoosts : Nat) (l : List QueuedMessageM) (m : QueuedMessageM) :
    queuePotential maxBoosts (l ++ [m]) = queuePotential maxBoosts l + msgPotential maxBoosts m := by
  simp [queuePotential]

theorem queuePotential_eraseIdx (maxBoosts : Nat) (q : List QueuedMessageM)
    (i : Nat) (h : i < q.length) :
    queuePotential maxBoosts (q.eraseIdx i) + msgPotential maxBoosts (q.get ⟨i, h⟩)
      = queuePotential maxBoosts q := by
  induction q generalizing i with
  | nil => simp at h
  | cons head tail ih =>
    cases i with
    | zero => simp [queuePotential, Nat.add_comm]
    | succ j =>
      have hj : j < tail.length := by simpa using h
      have := ih j hj
      simp only [List.eraseIdx, queuePotential, List.map_cons, List.sum_cons, List.get] at *
      omega

theorem getD_set_self {α : Type _} (l : List α) (i : Nat) (x d : α) (h : i < l.length) :
    (l.set i x).getD i d = x := by
  induction l generalizing i with
  | nil => simp at h
  | cons head tail ih =>
    cases i with
    | zero => rfl
    | succ j => exact ih j (by simpa using h)

theorem getD_set_ne {α : Type _} (l : List α) (i j : Nat) (x d : α) (h : j ≠ i) :
    (l.set j x).getD i d = l.getD i d := by
  induction l generalizing i j with
  | nil => rfl
  | cons head tail ih =>
    cases j with
    | zero => cases i with
      | zero => exact absurd rfl h
      | succ _ => rfl
    | succ j' => cases i with
      | zero => rfl
      | succ i' => exact ih i' j' (by omega)

theorem getD_of_length_le {α : Type _} (l : List α) (i : Nat) (d : α)
    (h : l.length ≤ i) : l.getD i d = d := by
  induction l generalizing i with
  | nil => rfl
  | cons head tail ih =>
    cases i with
    | zero => simp at h
    | succ j => exact ih j (by simpa using h)

/-- The inner `while index < queue.len()` loop of `apply_aging`, scanning
the queue at tier `p`.  A boosted entry is removed at `index`, promoted
one level, and pushed at the tail of the queue for its new tier (which
may be the same queue when the entry already sits at `critical`); the
scan then resumes at the same `index`. -/
def scanQueue (cfg : DispatcherConfigM) (now : Nat)
    (queues : List (List QueuedMessageM)) (p index : Nat) :
    List (List QueuedMessageM) :=
  if h : index < (queues.getD p []).length then
    if ((queues.getD p []).get ⟨index, h⟩).eligibleForBoost
        now cfg.agingThreshold cfg.maxAgingBoosts then
      scanQueue cfg now
        ((queues.set p ((queues.getD p []).eraseIdx index)).set
          (boostMsg ((queues.getD p []).get ⟨index, h⟩)).effectivePriority.asIndex
          ((queues.set p ((queues.getD p []).eraseIdx index)).getD
            (boostMsg ((queues.getD p []).get ⟨index, h⟩)).effectivePriority.asIndex []
            ++ [boostMsg ((queues.getD p []).get ⟨index, h⟩)]))
        p index
    else
      scanQueue cfg now queues p (index + 1)
  else queues
termination_by (queuePotential cfg.maxAgingBoosts (queues.getD p []), (queues.getD p []).length - index)
decreasing_by
  · apply Prod.Lex.left
    rename_i hb
    have hp : p < queues.length := by
      by_contra hc
      rw [getD_of_length_le queues p [] (by omega)] at h
      simp at h
    have hboosts : ((queues.getD p []).get ⟨index, h⟩).agingBoosts < cfg.maxAgingBoosts := by
      simp only [QueuedMessageM.eligibleForBoost, Bool.and_eq_true, decide_eq_true_eq] at hb
      exact hb.1
    have herase := queuePotential_eraseIdx cfg.maxAgingBoosts (queues.getD p []) index h
    have hgetp' :
        (queues.set p ((queues.getD p []).eraseIdx index)).getD p []
          = (queues.getD p []).eraseIdx index :=
      getD_set_self queues p _ [] hp
    by_cases hbp : (boostMsg ((queues.getD p []).get ⟨index, h⟩)).effectivePriority.asIndex = p
    · rw [hbp, getD_set_self _ p _ [] (by simpa using hp), hgetp', queuePotential_append]
      have hm' :
          msgPotential cfg.maxAgingBoosts (boostMsg ((queues.getD p []).get ⟨index, h⟩))
            = cfg.maxAgingBoosts - (((queues.getD p []).get ⟨index, h⟩).agingBoosts + 1) := by
        simp [msgPotential, boostMsg]
      have hm :
          msgPotential cfg.maxAgingBoosts ((queues.getD p []).get ⟨index, h⟩)
            = cfg.maxAgingBoosts - ((queues.getD p []).get ⟨index, h⟩).agingBoosts := rfl
      omega
    · rw [getD_set_ne _ p _ _ [] hbp, hgetp']
      have hm :
          msgPotential cfg.maxAgingBoosts ((queues.getD p []).get ⟨index, h⟩)
            = cfg.maxAgingBoosts - ((queues.getD p []).get ⟨index, h⟩).agingBoosts := rfl
      omega
  · apply Prod.Lex.right
    omega

/-- `apply_aging`: the outer `for priority in 0..queues.len().saturating_sub(1)`
loop. -/
def applyAging (cfg : DispatcherConfigM) (now : Nat)
    (queues : List (List QueuedMessageM)) : List (List QueuedMessageM) :=
  if queues.isEmpty then queues
  else (List.range (queues.length - 1)).foldl (fun qs p => scanQueue cfg now qs p 0) queues

/-- A sequence of aging passes at the given instants. -/
def applyAgingSeq (cfg : DispatcherConfigM) (times : List Nat)
    (queues : List (List QueuedMessageM)) : List (List QueuedMessageM) :=
  times.foldl (fun qs t => applyAging cfg t qs) queues

/-- The enqueue path of `route_message`: the new `QueuedMessage` is pushed
at the tail of the queue indexed by its effective (= declared) priority. -/
def enqueueMessage (queues : List (List QueuedMessageM)) (msg : MessageM) (now : Nat) :
    List (List QueuedMessageM) :=
  let queued := QueuedMessageM.new msg now
  let index := queued.effectivePriority.asIndex
  queues.set index (queues.getD index [] ++ [queued])

/-! ## Ledger events (`ledger/mod.rs`) -/

structure EventMetadataM where
  traceId : Option String
  agentId : Option String
  territoryId : Option String
  priority : Option String
deriving DecidableEq, Repr

def eventMetadataDefault : EventMetadataM := ⟨none, none, none, none⟩

structure RouterDispatchRecordM where
  messageId : Option String
  contentDigest : Option String
  sender : String
  recipient : String
  priority : String
  effectivePriority : String
  waitTimeMs : Nat
  queueDepths : List Nat
  agingBoosts : Nat
  retryCount : Nat
deriving DecidableEq, Repr

structure RateLimitedRecordM where
  sender : String
  priority : String
  tokensRemaining : ℚ
deriving DecidableEq, Repr

inductive RouterEventM where
  | dispatched (record : RouterDispatchRecordM)
  | rateLimited (record : RateLimitedRecordM)
deriving DecidableEq, Repr

structure LeaseRecordM where
  leaseId : Nat
  resourceId : String
  holderId : String
  priority : String
deriving DecidableEq, Repr

structure LeaseQueueRecordM where
  requestId : String
  agentId : String
  resourceId : String
  queuePosition : Nat
  graceDeadlineMs : Option Nat
deriving DecidableEq, Repr

structure LeaseEscalationRecordM where
  agentId : String
  resourceId : String
  reason : String
deriving DecidableEq, Repr

inductive LeaseEventM where
  | granted (record : LeaseRecordM)
  | released (record : LeaseRecordM)
  | deferred (record : LeaseQueueRecordM)
  | escalated (record : LeaseEscalationRecordM)
  | overridden (previous lease : LeaseRecordM)
deriving DecidableEq, Repr

structure PtyEventM where
  agentId : String
  eventName : Option String
  timestampMs : Nat
deriving DecidableEq, Repr

structure HealthEventM where
  severity : String
  message : String
  timestampMs : Nat
deriving DecidableEq, Repr

/-- `RouterReplayState` -/
structure RouterReplayStateM where
  totalDispatched : Nat
  lastPriority : Option String
  queueDepths : List Nat
deriving DecidableEq, Repr

def routerReplayDefault : RouterReplayStateM := ⟨0, none, []⟩

/-- `RouterReplayState::apply_dispatch` -/
def RouterReplayStateM.applyDispatch (s : RouterReplayStateM)
    (record : RouterDispatchRecordM) : RouterReplayStateM :=
  { totalDispatched := satAdd64 s.totalDispatched 1
    lastPriority := some record.effectivePriority
    queueDepths := record.queueDepths }

/-- Association-list model of the `HashMap` insert (replace the existing
binding in place, else append). -/
def assocInsert {β : Type _} (m : List (String × β)) (k : String) (v : β) :
    List (String × β) :=
  match m with
  | [] => [(k, v)]
  | (k', v') :: rest => if k' = k then (k, v) :: rest else (k', v') :: assocInsert rest k v

/-- Association-list model of the `HashMap` remove. -/
def assocRemove {β : Type _} (m : List (String × β)) (k : String) :
    List (String × β) :=
  m.filter (fun kv => kv.1 != k)

/-- Association-list model of the `HashMap` lookup. -/
def assocLookup {β : Type _} (m : List (String × β)) (k : String) : Option β :=
  (m.find? (fun kv => kv.1 == k)).map (fun kv => kv.2)

/-- `LeaseReplayState` -/
structure LeaseReplayStateM where
  active : List (String × LeaseRecordM)
  deferrals : Nat
  overrides : Nat
  escalations : Nat
deriving DecidableEq, Repr

def leaseReplayDefault : LeaseReplayStateM := ⟨[], 0, 0, 0⟩

/-- `LeaseReplayState::apply` -/
def LeaseReplayStateM.apply (s : LeaseReplayStateM) (event : LeaseEventM) :
    LeaseReplayStateM :=
  match event with
  | .granted record => { s with active := assocInsert s.active record.resourceId record }
  | .released record => { s with active := assocRemove s.active record.resourceId }
  | .deferred _ => { s with deferrals := satAdd64 s.deferrals 1 }
  | .escalated _ => { s with escalations := satAdd64 s.escalations 1 }
  | .overridden _ lease =>
    { s with overrides := satAdd64 s.overrides 1
             active := assocInsert s.active lease.resourceId lease }

/-- `StateCheckpoint`.  The embedded `MetricsSnapshot` is not modelled:
replay only copies it verbatim into the outcome and no claim inspects
it; the replay state proper is the router/lease pair. -/
structure StateCheckpointM where
  checkpointId : String
  capturedAtMs : Nat
  router : RouterReplayStateM
  leases : LeaseReplayStateM
deriving DecidableEq, Repr

inductive LedgerEventM where
  | router (event : RouterEventM)
  | lease (event : LeaseEventM)
  | consensus (event : ConsensusEventM)
  | pty (event : PtyEventM)
  | health (event : HealthEventM)
  | checkpoint (checkpoint : StateCheckpointM)
deriving DecidableEq, Repr

/-- `RouterEvent::metadata` -/
def RouterEventM.metadata : RouterEventM → EventMetadataM
  | .dispatched record =>
    { agentId := some record.sender, priority := some record.effectivePriority
      traceId := record.messageId, territoryId := none }
  | .rateLimited record =>
    { agentId := some record.sender, priority := some record.priority
      traceId := none, territoryId := none }

/-- `LeaseEvent::metadata` -/
def LeaseEventM.metadata : LeaseEventM → EventMetadataM
  | .granted record | .released record | .overridden _ record =>
    { agentId := some record.holderId, territoryId := some record.resourceId
      priority := some record.priority
      traceId := some ("lease-" ++ toString record.leaseId) }
  | .deferred record =>
    { agentId := some record.agentId, territoryId := some record.resourceId
      priority := none, traceId := some ("lease-queue-" ++ record.requestId) }
  | .escalated record =>
    { agentId := some record.agentId, territoryId := some record.resourceId
      priority := none, traceId := some ("lease-escalation-" ++ record.reason) }

/-- `ConsensusEvent::metadata` -/
def ConsensusEventM.metadata : ConsensusEventM → EventMetadataM
  | .proposal signal | .vote signal | .commit signal =>
    { traceId := some signal.topic
      agentId := signal.agentId
      territoryId :=
        match signal.vector with
        | some vec => some vec.resourceId
        | none => signal.territoryId
      priority := none }
  | .idle => eventMetadataDefault

/-- `PtyEvent::metadata` -/
def PtyEventM.metadata (e : PtyEventM) : EventMetadataM :=
  { agentId := some e.agentId, traceId := some ("pty-" ++ toString e.timestampMs)
    territoryId := none, priority := none }

/-- `HealthEvent::metadata` -/
def HealthEventM.metadata (e : HealthEventM) : EventMetadataM :=
  { traceId := some ("health-" ++ toString e.timestampMs), agentId := none
    territoryId := none, priority := some e.severity }

/-- `StateCheckpoint::metadata` -/
def StateCheckpointM.metadata (c : StateCheckpointM) : EventMetadataM :=
  { traceId := some c.checkpointId, agentId := none
    territoryId := none, priority := none }

/-- `LedgerEvent::metadata` -/
def LedgerEventM.metadata : LedgerEventM → EventMetadataM
  | .router event => event.metadata
  | .lease event => event.metadata
  | .consensus event => event.metadata
  | .pty event => event.metadata
  | .health event => event.metadata
  | .checkpoint c => StateCheckpointM.metadata c

/-! ## Event envelopes, the writer and the hash chain (`ledger/mod.rs`) -/

/-- The envelope as serialized for hashing: the JSON object with the
`hashChain` key removed (`EventEnvelope::without_hash`). -/
structure EnvelopeSansHash where
  epochId : String
  sequence : Nat
  logicalClock : LogicalClock
  metadata : EventMetadataM
  payloadDigest : String
  event : LedgerEventM
deriving DecidableEq, Repr

structure EventEnvelopeM where
  epochId : String
  sequence : Nat
  logicalClock : LogicalClock
  metadata : EventMetadataM
  payloadDigest : String
  hashChain : String
  event : LedgerEventM
deriving DecidableEq, Repr

/-- `EventEnvelope::without_hash` -/
def EventEnvelopeM.withoutHash (e : EventEnvelopeM) : EnvelopeSansHash :=
  ⟨e.epochId, e.sequence, e.logicalClock, e.metadata, e.payloadDigest, e.event⟩

/-- The BLAKE3 hash and the deterministic serde-JSON serializations,
abstracted as functions: `hashConcat prev bytes` is the hex digest of
`H(prev ‖ bytes)`, `digest` the hex digest of a byte string, and the
three `ser…` are the serde serializations used by `append`,
`without_hash` and `verify_epoch`. -/
structure CodecM where
  hashConcat : String → String → String
  serEvent : LedgerEventM → String
  serSans : EnvelopeSansHash → String
  serEnv : EventEnvelopeM → String
  digest : String → String

inductive LedgerErrorM where
  | ioError
  | serdeError
deriving DecidableEq, Repr

/-- `LedgerRuntimeConfig` (segment duration already converted to
milliseconds). -/
structure LedgerRuntimeConfigM where
  segmentSizeBytes : Nat
  segmentDurationMs : Nat
deriving DecidableEq, Repr

/-- `WriterState`.  `buffer`/`flushedLines` model the `BufWriter`: bytes
written but not yet flushed, and the flushed lines of the epoch's
segment files. -/
structure WriterStateM where
  sequence : Nat
  prevHash : String
  segmentIndex : Nat
  bytesWritten : Nat
  segmentOpenedAt : Nat
  buffer : String
  flushedLines : List String
deriving DecidableEq, Repr

/-- `WriterState::new` -/
def WriterStateM.new (now : Nat) : WriterStateM :=
  { sequence := 0, prevHash := "0", segmentIndex := 0, bytesWritten := 0
    segmentOpenedAt := now, buffer := "", flushedLines := [] }

/-- `WriterState::should_rotate` -/
def WriterStateM.shouldRotate (s : WriterStateM) (now : Nat)
    (cfg : LedgerRuntimeConfigM) : Bool :=
  decide (cfg.segmentSizeBytes ≤ s.bytesWritten)
    || decide (cfg.segmentDurationMs ≤ now - s.segmentOpenedAt)

/-- Failure schedule for one `append` call: which of the fallible steps
(`open_segment`, the three `serde_json::to_vec` calls, the two
`write_all`s and the `flush`) fail. -/
structure AppendOracle where
  openFails : Bool
  serEventFails : Bool
  serSansFails : Bool
  serEnvFails : Bool
  write1Fails : Bool
  write2Fails : Bool
  flushFails : Bool
deriving DecidableEq, Repr

/-- The all-success schedule. -/
def okOracle : AppendOracle := ⟨false, false, false, false, false, false, false⟩

structure AppendResult where
  result : Except LedgerErrorM EventEnvelopeM
  state : WriterStateM
  clock : HybridLogicalClock

/-- `LedgerInner::append`, with every fallible step's outcome driven by
the oracle, and state mutations in source order: rotation first (index
incremented and byte counter reset even when the subsequent
`open_segment` fails), then the clock tick, the event serialization, the
sequence increment, the hash-chain computation and `prev_hash` update,
the envelope serialization, the two writes, the flush, and finally the
byte accounting.  The broadcast send is not modelled. -/
def appendM (codec : CodecM) (cfg : LedgerRuntimeConfigM) (epochId : String)
    (o : AppendOracle) (state : WriterStateM) (clock : HybridLogicalClock)
    (event : LedgerEventM) (now : Nat) : AppendResult :=
  let rotate := state.shouldRotate now cfg
  let state1 :=
    if rotate then
      { state with segmentIndex := satAdd32 state.segmentIndex 1
                   bytesWritten := 0
                   segmentOpenedAt := now }
    else state
  if rotate && o.openFails then ⟨.error .ioError, state1, clock⟩
  else
  let state1 := if rotate then { state1 with buffer := "" } else state1
  let metadata := event.metadata
  let clock1 := (clock.tick now).1
  let lc := (clock.tick now).2
  if o.serEventFails then ⟨.error .serdeError, state1, clock1⟩
  else
  let payloadDigest := codec.digest (codec.serEvent event)
  let state2 := { state1 with sequence := satAdd64 state1.sequence 1 }
  let sans : EnvelopeSansHash :=
    { epochId := epochId, sequence := state2.sequence, logicalClock := lc
      metadata := metadata, payloadDigest := payloadDigest, event := event }
  if o.serSansFails then ⟨.error .serdeError, state2, clock1⟩
  else
  let hashChain := codec.hashConcat state2.prevHash (codec.serSans sans)
  let state3 := { state2 with prevHash := hashChain }
  let envelope : EventEnvelopeM :=
    { epochId := epochId, sequence := state2.sequence, logicalClock := lc
      metadata := metadata, payloadDigest := payloadDigest
      hashChain := hashChain, event := event }
  if o.serEnvFails then ⟨.error .serdeError, state3, clock1⟩
  else
  let line := codec.serEnv envelope
  if o.write1Fails then ⟨.error .ioError, state3, clock1⟩
  else
  let state4 := { state3 with buffer := state3.buffer ++ line }
  if o.write2Fails then ⟨.error .ioError, state4, clock1⟩
  else
  let state5 := { state4 with buffer := state4.buffer ++ "\n" }
  if o.flushFails then ⟨.error .ioError, state5, clock1⟩
  else
  let state6 := { state5 with flushedLines := state5.flushedLines ++ [state5.buffer]
                              buffer := "" }
  let state7 := { state6 with bytesWritten := satAdd64 state6.bytesWritten (line.length + 1) }
  ⟨.ok envelope, state7, clock1⟩

/-- A sequence of successful appends on a single writer (each element is
an event together with the wall-clock instant of its append), returning
the envelopes in write order. -/
def writeChainGo (codec : CodecM) (cfg : LedgerRuntimeConfigM) (epochId : String) :
    WriterStateM → HybridLogicalClock → List (LedgerEventM × Nat) → List EventEnvelopeM
  | _, _, [] => []
  | s, c, (e, now) :: rest =>
    let r := appendM codec cfg epochId okOracle s c e now
    match r.result with
    | .ok env => env :: writeChainGo codec cfg epochId r.state r.clock rest
    | .error _ => []

def writeChain (codec : CodecM) (cfg : LedgerRuntimeConfigM) (epochId : String)
    (events : List (LedgerEventM × Nat)) : List EventEnvelopeM :=
  writeChainGo codec cfg epochId (WriterStateM.new 0) hlcDefault events

/-- The verification loop of `LedgerReader::verify_epoch`, threading the
predecessor hash (started at `"0"`). -/
def verifyFrom (codec : CodecM) (prevHash : String) : List EventEnvelopeM → Bool
  | [] => true
  | env :: rest =>
    let expected := codec.hashConcat prevHash (codec.serSans env.withoutHash)
    if expected = env.hashChain then verifyFrom codec env.hashChain rest else false

/-- `verify_epoch` applied to the envelopes read back from an epoch. -/
def verifyEnvs (codec : CodecM) (envs : List EventEnvelopeM) : Bool :=
  verifyFrom codec "0" envs

/-! ## Reader (`LedgerReader::read_epoch` / `verify_epoch`) -/

/-- One line of a segment file as seen by the read loop: blank (skipped),
a line that parses into an envelope, or a malformed line (serde error). -/
inductive SegmentLineM where
  | blank
  | parsed (envelope : EventEnvelopeM)
  | malformed
deriving DecidableEq, Repr

/-- The read loop over one segment's lines. -/
def readLines : List SegmentLineM → Except LedgerErrorM (List EventEnvelopeM)
  | [] => .ok []
  | .blank :: rest => readLines rest
  | .malformed :: _ => .error .serdeError
  | .parsed env :: rest =>
    match readLines rest with
    | .ok tail => .ok (env :: tail)
    | .error e => .error e

/-- The read loop over the sorted segment files. -/
def readSegments : List (List SegmentLineM) → Except LedgerErrorM (List EventEnvelopeM)
  | [] => .ok []
  | seg :: rest =>
    match readLines seg with
    | .error e => .error e
    | .ok head =>
      match readSegments rest with
      | .error e => .error e
      | .ok tail => .ok (head ++ tail)

/-- `LedgerReader::read_epoch`.  The file system is a map from epoch id
to the epoch directory: `none` models a directory that does not exist
(the `!epoch_path.exists()` early return); `some segments` the segment
files in ascending filename order. -/
def readEpochM (fs : String → Option (List (List SegmentLineM)))
    (epochId : String) : Except LedgerErrorM (List EventEnvelopeM) :=
  match fs epochId with
  | none => .ok []
  | some segments => readSegments segments

/-- `LedgerReader::verify_epoch` -/
def verifyEpochM (codec : CodecM) (fs : String → Option (List (List SegmentLineM)))
    (epochId : String) : Except LedgerErrorM Bool :=
  match readEpochM fs epochId with
  | .error e => .error e
  | .ok envs => .ok (verifyEnvs codec envs)

/-! ## Replay (`ReplayCoordinator::replay_epoch`) -/

/-- `ReplayOutcome` (without the opaque metrics snapshot, see
`StateCheckpointM`). -/
structure ReplayOutcomeM where
  router : RouterReplayStateM
  leases : LeaseReplayStateM
  checkpoints : List StateCheckpointM
  lastSequence : Option Nat
  tailHash : Option String
deriving DecidableEq, Repr

def replayOutcomeDefault : ReplayOutcomeM :=
  ⟨routerReplayDefault, leaseReplayDefault, [], none, none⟩

/-- The body of the `for envelope in events` loop of `replay_epoch`,
including `ReplayOutcome::update_from_checkpoint` for checkpoints. -/
def replayStep (outcome : ReplayOutcomeM) (envelope : EventEnvelopeM) : ReplayOutcomeM :=
  let outcome :=
    match envelope.event with
    | .router (.dispatched record) =>
      { outcome with router := outcome.router.applyDispatch record }
    | .router (.rateLimited _) => outcome
    | .lease event => { outcome with leases := outcome.leases.apply event }
    | .consensus _ => outcome
    | .pty _ => outcome
    | .health _ => outcome
    | .checkpoint checkpoint =>
      { outcome with checkpoints := outcome.checkpoints ++ [checkpoint]
                     router := checkpoint.router
                     leases := checkpoint.leases }
  { outcome with lastSequence := some envelope.sequence
                 tailHash := some envelope.hashChain }

/-- `ReplayCoordinator::replay_epoch` on the envelopes read back from the
epoch. -/
def replayEpoch (envelopes : List EventEnvelopeM) : ReplayOutcomeM :=
  envelopes.foldl replayStep replayOutcomeDefault

/-- Modelled from the spec: "applying the events incrementally in order"
— the incremental fold of the round-trip law, with a checkpoint event
replacing the accumulated state by the checkpoint's embedded snapshot. -/
def incrementalFold (events : List LedgerEventM) :
    RouterReplayStateM × LeaseReplayStateM :=
  events.foldl
    (fun s event =>
      match event with
      | .router (.dispatched record) => (s.1.applyDispatch record, s.2)
      | .lease e => (s.1, s.2.apply e)
      | .checkpoint c => (c.router, c.leases)
      | _ => s)
    (routerReplayDefault, leaseReplayDefault)

/-! ## Territory manager (`territory.rs`), without the optional
`spatial-hash` feature -/

structure TerritoryPolicyM where
  defaultLeaseDurationMs : Nat
  maxLeaseDurationMs : Nat
  autoExtendThresholdMs : Nat
  negotiationTimeoutMs : Nat
  negotiationMaxRounds : Nat
  escalationQueueThreshold : Nat
  escalationDeadlockTimeoutMs : Nat
  fairnessStarvationThresholdMs : Nat
  fairnessPriorityBoostAfterMs : Nat
  overridePriorityDelta : Nat
  spatialCellSize : ℚ
  consensusThreshold : ℚ
  heatDecayPerSecond : ℚ
  heatIncrement : ℚ
  heatMax : ℚ
deriving DecidableEq, Repr

/-- `TerritoryPolicy::baseline` (durations in milliseconds). -/
def territoryPolicyBaseline : TerritoryPolicyM :=
  { defaultLeaseDurationMs := 900000, maxLeaseDurationMs := 3600000
    autoExtendThresholdMs := 60000, negotiationTimeoutMs := 30000
    negotiationMaxRounds := 3, escalationQueueThreshold := 2
    escalationDeadlockTimeoutMs := 60000, fairnessStarvationThresholdMs := 600000
    fairnessPriorityBoostAfterMs := 300000, overridePriorityDelta := 1
    spatialCellSize := 64, consensusThreshold := 66 / 100
    heatDecayPerSecond := 15 / 100, heatIncrement := 3 / 2, heatMax := 10 }

inductive NegotiationStateM where
  | idle
  | queued
  | negotiating
  | deferred
  | escalating
  | overridden
  | expired
deriving DecidableEq, Repr, BEq

inductive EscalationReasonM where
  | queueDepth
  | starvation
  | deadlock
deriving DecidableEq, Repr

def clamp01 (q : ℚ) : ℚ := min (max q 0) 1

structure LeaseM where
  id : Nat
  resourceId : String
  holderId : String
  holderRole : Option String
  priority : Priority
  grantedAt : Nat
  expiresAt : Nat
  lastHeartbeatAt : Nat
  holderProgress : ℚ
  negotiationState : NegotiationStateM
  conflictAttempts : Nat
  deferCount : Nat
  overrideCount : Nat
  escalationTicket : Option String
  coordinates : Option (ℚ × ℚ)
deriving DecidableEq, Repr

structure LeaseSnapshotM where
  leaseId : Nat
  resourceId : String
  holderId : String
  holderRole : Option String
  priority : Priority
  grantedAt : Nat
  expiresAt : Nat
  lastHeartbeatAt : Nat
  holderProgress : ℚ
  conflictAttempts : Nat
  deferCount : Nat
  overrideCount : Nat
  escalationTicket : Option String
deriving DecidableEq, Repr

/-- `Lease::snapshot` -/
def LeaseM.snapshot (l : LeaseM) : LeaseSnapshotM :=
  ⟨l.id, l.resourceId, l.holderId, l.holderRole, l.priority, l.grantedAt,
   l.expiresAt, l.lastHeartbeatAt, l.holderProgress, l.conflictAttempts,
   l.deferCount, l.overrideCount, l.escalationTicket⟩

structure LeaseRequestM where
  agentId : String
  resourceId : String
  priority : Priority
  holderRole : Option String
  progressHint : Option ℚ
  coordinates : Option (ℚ × ℚ)
deriving DecidableEq, Repr

/-- `Lease::new`; `id` is drawn from the monotonic lease-id counter. -/
def LeaseM.new (id : Nat) (request : LeaseRequestM) (now : Nat)
    (policy : TerritoryPolicyM) : LeaseM :=
  let effectiveDuration :=
    if policy.defaultLeaseDurationMs < policy.maxLeaseDurationMs then
      policy.defaultLeaseDurationMs
    else policy.maxLeaseDurationMs
  { id := id, resourceId := request.resourceId, holderId := request.agentId
    holderRole := request.holderRole, priority := request.priority
    grantedAt := now, expiresAt := now + effectiveDuration, lastHeartbeatAt := now
    holderProgress := clamp01 (request.progressHint.getD 0)
    negotiationState := .idle, conflictAttempts := 0, deferCount := 0
    overrideCount := 0, escalationTicket := none
    coordinates := request.coordinates }

structure NegotiationHandleM where
  requestId : Nat
  resourceId : String
  agentId : String
  queuePosition : Nat
deriving DecidableEq, Repr

structure LeaseQueueDescriptorM where
  agentId : String
  priority : Priority
  holderRole : Option String
  coordinates : Option (ℚ × ℚ)
deriving DecidableEq, Repr

/-- `LeaseQueueDescriptor::from_request` -/
def descriptorOfRequest (request : LeaseRequestM) : LeaseQueueDescriptorM :=
  ⟨request.agentId, request.priority, request.holderRole, request.coordinates⟩

structure LeaseQueueEntryM where
  id : Nat
  handle : NegotiationHandleM
  request : LeaseQueueDescriptorM
  enqueuedAt : Nat
  deferredUntil : Option Nat
  state : NegotiationStateM
  escalationTicket : Option String
deriving DecidableEq, Repr

/-- `TerritoryState`; the two process-wide monotonic id counters
(`LEASE_ID_COUNTER`, `REQUEST_ID_COUNTER`) are carried in the state. -/
structure TerritoryStateM where
  leases : List (String × LeaseM)
  queues : List (String × List LeaseQueueEntryM)
  nextLeaseId : Nat
  nextRequestId : Nat
deriving DecidableEq, Repr

/-- The comparator of `TerritoryState::reindex`:
`b.request.priority.cmp(&a.request.priority).then(a.enqueued_at.cmp(&b.enqueued_at))`
as a "comes before or equal" test for the stable sort. -/
def entryBefore (a b : LeaseQueueEntryM) : Bool :=
  decide (b.request.priority.asIndex < a.request.priority.asIndex)
    || (decide (a.request.priority.asIndex = b.request.priority.asIndex)
        && decide (a.enqueuedAt ≤ b.enqueuedAt))

/-- The per-entry fix-ups of `TerritoryState::reindex` at position
`index` (0-based). -/
def reindexEntry (policy : TerritoryPolicyM) (index : Nat)
    (entry : LeaseQueueEntryM) : LeaseQueueEntryM :=
  let entry := { entry with handle := { entry.handle with queuePosition := index + 1 } }
  let entry :=
    if entry.deferredUntil.isSome && (entry.state == NegotiationStateM.queued) then
      { entry with state := .deferred }
    else entry
  if (entry.state == NegotiationStateM.negotiating)
      && decide (policy.negotiationMaxRounds ≤ index) then
    { entry with state := .escalating }
  else entry

/-- `TerritoryState::reindex`: stable sort by descending priority then
ascending enqueue instant, followed by the position/state fix-ups. -/
def reindex (policy : TerritoryPolicyM) (entries : List LeaseQueueEntryM) :
    List LeaseQueueEntryM :=
  let sorted := List.insertionSort (fun a b => entryBefore a b = true) entries
  sorted.mapIdx (fun index entry => reindexEntry policy index entry)

/-- `TerritoryState::total_queue_depth` -/
def totalQueueDepth (st : TerritoryStateM) : Nat :=
  (st.queues.map (fun kv => kv.2.length)).sum

/-- `TerritoryState::enqueue` -/
def TerritoryStateM.enqueue (st : TerritoryStateM) (policy : TerritoryPolicyM)
    (request : LeaseRequestM) (requestedAt : Nat) (state : NegotiationStateM)
    (deferredUntil : Option Nat) : TerritoryStateM × NegotiationHandleM × Nat :=
  let entries := (assocLookup st.queues request.resourceId).getD []
  let requestId := st.nextRequestId
  let handle : NegotiationHandleM :=
    { requestId := requestId, resourceId := request.resourceId
      agentId := request.agentId, queuePosition := entries.length + 1 }
  let entry : LeaseQueueEntryM :=
    { id := requestId, handle := handle, request := descriptorOfRequest request
      enqueuedAt := requestedAt, deferredUntil := deferredUntil, state := state
      escalationTicket := none }
  let entries := reindex policy (entries ++ [entry])
  let position :=
    ((entries.find? (fun e => e.id == requestId)).map
      (fun e => e.handle.queuePosition)).getD 1
  let handle := { handle with queuePosition := position }
  let st := { st with queues := assocInsert st.queues request.resourceId entries
                      nextRequestId := st.nextRequestId + 1 }
  (st, handle, totalQueueDepth st)

/-- `LeaseInventorySnapshot::from_state` →
`(active_count, pending_by_resource, outstanding_lease_ids)`. -/
def inventoryOf (st : TerritoryStateM) : Nat × List (String × Nat) × List Nat :=
  (st.leases.length,
   st.queues.map (fun kv => (kv.1, kv.2.length)),
   st.leases.map (fun kv => kv.2.id))

inductive LeaseDecisionM where
  | granted (snapshot : LeaseSnapshotM)
  | deferred (handle : NegotiationHandleM) (graceDeadline : Nat)
  | queued (handle : NegotiationHandleM)
  | overridden (previous lease : LeaseSnapshotM)
deriving DecidableEq, Repr

inductive TerritoryEventM where
  | granted (snapshot : LeaseSnapshotM)
  | deferred (handle : NegotiationHandleM) (graceDeadline : Nat)
  | queued (handle : NegotiationHandleM)
  | released (snapshot : LeaseSnapshotM)
  | overridden (previous lease : LeaseSnapshotM)
  | escalated (handle : NegotiationHandleM) (reason : EscalationReasonM)
deriving DecidableEq, Repr

/-- The observable side effects of `acquire_lease`, in call order:
heat-map bumps (`bump_heat_map`), heat summary publication without a
bump (`publish_heat_summary`), consensus calls
(`record_quorum_decision`), metrics counters, the lease-inventory
publication and broadcast events. -/
inductive EffectM where
  | bumpHeat (resource : String)
  | publishHeatSummary
  | recordQuorum (resource : String) (votes : List QuorumVote) (reason : String)
  | recordLeaseOverride
  | recordLeaseGrant
  | recordLeaseDeferral
  | recordLeaseEscalation
  | updateLeaseInventory (active : Nat) (pending : List (String × Nat))
      (outstanding : List Nat)
  | emitEvent (event : TerritoryEventM)
deriving DecidableEq, Repr

/-- `TerritoryManager::acquire_lease` (`spatial-hash` disabled),
returning the new territory state, the decision, and the effect trace in
source order. -/
def acquireLease (policy : TerritoryPolicyM) (st : TerritoryStateM)
    (request : LeaseRequestM) (now : Nat) :
    TerritoryStateM × LeaseDecisionM × List EffectM :=
  match assocLookup st.leases request.resourceId with
  | some active =>
    let requesterId := request.agentId
    let quorumVotes : List QuorumVote :=
      [⟨active.holderId, ((active.priority.asIndex + 1 : Nat) : ℚ), false⟩,
       ⟨requesterId, ((request.priority.asIndex + 1 : Nat) : ℚ), true⟩]
    if (policy.overridePriorityDelta : ℤ)
        ≤ (request.priority.asIndex : ℤ) - (active.priority.asIndex : ℤ) then
      let resourceKey := request.resourceId
      let active1 := { active with coordinates := request.coordinates }
      let previousSnapshot := active1.snapshot
      let active2 :=
        { active1 with
            holderId := request.agentId
            holderRole := request.holderRole
            priority := request.priority
            grantedAt := now
            expiresAt := now + policy.defaultLeaseDurationMs
            lastHeartbeatAt := now
            holderProgress := clamp01 (request.progressHint.getD 0)
            overrideCount := active1.overrideCount + 1 }
      let snapshot := active2.snapshot
      let st := { st with leases := assocInsert st.leases resourceKey active2 }
      let inv := inventoryOf st
      (st, .overridden previousSnapshot snapshot,
        [.bumpHeat resourceKey,
         .recordQuorum resourceKey quorumVotes "override",
         .recordLeaseOverride,
         .updateLeaseInventory inv.1 inv.2.1 inv.2.2,
         .emitEvent (.overridden previousSnapshot snapshot)])
    else
      let timeLeft := active.expiresAt - now
      let deferring := timeLeft ≤ policy.autoExtendThresholdMs
      let active' :=
        if deferring then { active with deferCount := active.deferCount + 1 }
        else { active with conflictAttempts := active.conflictAttempts + 1 }
      let st1 := { st with leases := assocInsert st.leases request.resourceId active' }
      let enq :=
        if deferring then
          st1.enqueue policy request now .deferred (some (now + policy.autoExtendThresholdMs))
        else
          st1.enqueue policy request now .queued none
      let st2 := enq.1
      let handle := enq.2.1
      let decision : LeaseDecisionM :=
        if deferring then .deferred handle (now + policy.autoExtendThresholdMs)
        else .queued handle
      let reasonBase := if deferring then "defer" else "queue"
      let entries := (assocLookup st2.queues handle.resourceId).getD []
      let waiterVotes : List QuorumVote :=
        (entries.filter (fun e => e.handle.agentId != requesterId)).map
          (fun e => ⟨e.handle.agentId, ((e.request.priority.asIndex + 1 : Nat) : ℚ), false⟩)
      let votes := quorumVotes ++ waiterVotes
      let depthEscalate := policy.escalationQueueThreshold ≤ entries.length
      let shouldEscalate :=
        depthEscalate
          || entries.any (fun e =>
              decide (policy.fairnessStarvationThresholdMs ≤ now - e.enqueuedAt))
      let reason := if shouldEscalate then "escalate" else reasonBase
      let escalationEffects : List EffectM :=
        if shouldEscalate then
          [.recordLeaseEscalation,
           .emitEvent (.escalated handle
             (if depthEscalate then .queueDepth else .starvation))]
        else []
      let inv := inventoryOf st2
      let decisionEvent : TerritoryEventM :=
        if deferring then .deferred handle (now + policy.autoExtendThresholdMs)
        else .queued handle
      (st2, decision,
        escalationEffects ++
          [.recordLeaseDeferral,
           .bumpHeat handle.resourceId,
           .recordQuorum handle.resourceId votes reason,
           .updateLeaseInventory inv.1 inv.2.1 inv.2.2,
           .emitEvent decisionEvent])
  | none =>
    let lease := LeaseM.new st.nextLeaseId request now policy
    let snapshot := lease.snapshot
    let st := { st with leases := assocInsert st.leases request.resourceId lease
                        nextLeaseId := st.nextLeaseId + 1 }
    let inv := inventoryOf st
    (st, .granted snapshot,
      [.recordLeaseGrant,
       .updateLeaseInventory inv.1 inv.2.1 inv.2.2,
       .publishHeatSummary,
       .emitEvent (.granted snapshot)])

/-! ## Concrete codec and fixtures used by witnesses and counterexamples -/

/-- A concrete instantiation of the abstract hash/serialization codec,
used to evaluate the writer model at concrete inputs. -/
def trivialCodec : CodecM :=
  { hashConcat := fun a b => a ++ "#" ++ b
    serEvent := fun _ => "E"
    serSans := fun _ => "S"
    serEnv := fun _ => "V"
    digest := fun s => s }

def smallLedgerCfg : LedgerRuntimeConfigM := ⟨1000, 1000⟩

def sampleHealthEvent : LedgerEventM := .health ⟨"info", "m", 0⟩

/-! ## C7 — consensus quorum evaluation -/

/-- C7: `record_quorum` returns `true` and emits no ledger events on an
empty vote set; for a non-empty vote set each non-positive weight is
coerced to `1.0`, the threshold is clamped to `[0,1]`, and the verdict
is `achieved = (total > ε) ∧ (agree / total ≥ threshold)` over the
coerced weights. -/
theorem record_quorum_spec (digest : QuorumVector → String) (t : ℚ)
    (r : String) (votes : List QuorumVote) (reason : String) :
    (votes = [] → recordQuorum digest t r votes reason = (true, [])) ∧
    (votes ≠ [] →
      ((recordQuorum digest t r votes reason).1 = true ↔
        (f32Epsilon < ((votes.map coerceWeight).map (fun v => v.weight)).sum ∧
          min (max t 0) 1 ≤
            (((votes.map coerceWeight).filter (fun v => v.vote)).map
                (fun v => v.weight)).sum
              / ((votes.map coerceWeight).map (fun v => v.weight)).sum))) := by
  constructor
  · intro h
    subst h
    rfl
  · intro h
    have hempty : votes.isEmpty = false := by
      cases votes with
      | nil => exact absurd rfl h
      | cons a l => rfl
    simp only [recordQuorum, hempty, Bool.false_eq_true, if_false]
    by_cases hc : f32Epsilon < ((votes.map coerceWeight).map (fun v => v.weight)).sum
    · simp [hc]
    · simp [hc]

/-- Witness for `record_quorum_spec`: one yes-vote whose weight `-1` is
coerced to `1`, threshold `1/2`, verdict `true`. -/
theorem record_quorum_spec_witness :
    (recordQuorum (fun _ => "") (1 / 2) "r"
        [{ agentId := "a", weight := -1, vote := true }] "override").1 = true :=
  ((record_quorum_spec (fun _ => "") (1 / 2) "r"
      [{ agentId := "a", weight := -1, vote := true }] "override").2
    (by simp)).mpr (by norm_num [coerceWeight, f32Epsilon])

/-! ## C8 — hybrid logical clock monotonicity -/

theorem tick_stall (s : HybridLogicalClock) (n : Nat)
    (hn : ¬ s.lastWall < min n u64Max) :
    s.tick n = (⟨s.lastWall, satAdd32 s.counter 1⟩,
                ⟨s.lastWall, satAdd32 s.counter 1⟩) := by
  simp only [HybridLogicalClock.tick]
  rw [if_neg hn]

theorem tick_advance (s : HybridLogicalClock) (n : Nat)
    (hn : s.lastWall < min n u64Max) :
    s.tick n = (⟨min n u64Max, 0⟩, ⟨min n u64Max, 0⟩) := by
  simp only [HybridLogicalClock.tick]
  rw [if_pos hn]

theorem tickSeq_cons (s : HybridLogicalClock) (n : Nat) (rest : List Nat) :
    tickSeq s (n :: rest) = tickSeq (s.tick n).1 rest := rfl

theorem tickSeq_replicate (w c k : Nat) (hw : w ≤ u64Max) (hc : c ≤ u32Max) :
    tickSeq ⟨w, c⟩ (List.replicate k w) = ⟨w, min (c + k) u32Max⟩ := by
  induction k generalizing c with
  | zero =>
    show (⟨w, c⟩ : HybridLogicalClock) = ⟨w, min (c + 0) u32Max⟩
    congr 1
    omega
  | succ n ih =>
    have hstep := tick_stall ⟨w, c⟩ w (by
      show ¬ w < min w u64Max
      omega)
    have hcons : tickSeq ⟨w, c⟩ (List.replicate (n + 1) w)
        = tickSeq ((⟨w, c⟩ : HybridLogicalClock).tick w).1 (List.replicate n w) := by
      rw [List.replicate_succ]
      rfl
    rw [hcons, hstep]
    refine (ih (satAdd32 c 1) (by simp only [satAdd32]; omega)).trans ?_
    congr 1
    simp only [satAdd32]
    omega

/-- C8 counterexample: a ledger instance whose per-millisecond counter
has saturated (reachable from the fresh clock by `2³²` ticks inside one
wall millisecond) returns the same `(wall_ms, counter)` pair on two
successive ticks, so the pairs are not strictly lexicographically
increasing. -/
theorem hlc_counterexample :
    tickSeq hlcDefault (5 :: List.replicate u32Max 5) = ⟨5, u32Max⟩ ∧
    ((⟨5, u32Max⟩ : HybridLogicalClock).tick 5).2 = ⟨5, u32Max⟩ ∧
    ((((⟨5, u32Max⟩ : HybridLogicalClock).tick 5).1).tick 5).2 = ⟨5, u32Max⟩ ∧
    ¬ lexLt ⟨5, u32Max⟩ ⟨5, u32Max⟩ := by
  have h5 : (5 : Nat) ≤ u64Max := by norm_num [u64Max]
  have hsat : satAdd32 u32Max 1 = u32Max := by simp only [satAdd32]; omega
  have h2 := tick_stall ⟨5, u32Max⟩ 5 (by
    show ¬ (5 : Nat) < min 5 u64Max
    omega)
  dsimp only at h2
  rw [hsat] at h2
  refine ⟨?_, ?_, ?_, ?_⟩
  · have hadv := tick_advance hlcDefault 5 (by
      show (0 : Nat) < min 5 u64Max
      rw [Nat.min_eq_left h5]
      norm_num)
    rw [tickSeq_cons, hadv]
    show tickSeq ⟨min 5 u64Max, 0⟩ (List.replicate u32Max 5) = ⟨5, u32Max⟩
    rw [Nat.min_eq_left h5, tickSeq_replicate 5 0 u32Max h5 (Nat.zero_le _)]
    congr 1
  · rw [h2]
  · rw [h2]
    show ((⟨5, u32Max⟩ : HybridLogicalClock).tick 5).2 = ⟨5, u32Max⟩
    rw [h2]
  · intro hcontra
    rcases hcontra with hlt | ⟨_, hlt⟩ <;> exact absurd hlt (lt_irrefl _)

/-- C8 amended: per ledger instance, successive hybrid-clock ticks
return strictly lexicographically increasing `(wall_ms, counter)` pairs
for every wall-clock input (including a stalled or rewound wall clock)
as long as the counter returned by the first tick has not saturated at
`u32::MAX`; at saturation a tick without wall-clock progress repeats the
previous pair. -/
theorem hlc_tick_lex_increasing (c : HybridLogicalClock) (n₁ n₂ : Nat)
    (h : ((c.tick n₁).1).counter < u32Max) :
    lexLt (c.tick n₁).2 (((c.tick n₁).1).tick n₂).2 := by
  have hout1 : (c.tick n₁).2
      = ⟨((c.tick n₁).1).lastWall, ((c.tick n₁).1).counter⟩ := rfl
  rw [hout1]
  generalize (c.tick n₁).1 = s1 at *
  by_cases hw : s1.lastWall < min n₂ u64Max
  · rw [tick_advance s1 n₂ hw]
    exact Or.inl hw
  · rw [tick_stall s1 n₂ hw]
    refine Or.inr ⟨rfl, ?_⟩
    show s1.counter < satAdd32 s1.counter 1
    simp only [satAdd32]
    omega

/-- Witness for `hlc_tick_lex_increasing`: a fresh clock ticked at wall
millisecond 1, then with the wall clock rewound to 0. -/
theorem hlc_tick_lex_increasing_witness :
    ((hlcDefault.tick 1).1).counter < u32Max ∧
      lexLt (hlcDefault.tick 1).2 (((hlcDefault.tick 1).1).tick 0).2 :=
  ⟨by decide, hlc_tick_lex_increasing hlcDefault 1 0 (by decide)⟩

/-! ## C9 — token bucket bounds -/

/-- The token-bucket invariant of the claim. -/
def BucketInv (b : TokenBucketM) : Prop :=
  0 ≤ b.tokens ∧ b.tokens ≤ b.capacity

theorem tokenCost_nonneg (p : Priority) : 0 ≤ p.tokenCost := by
  cases p <;> norm_num [Priority.tokenCost]

theorem refill_preserves (b : TokenBucketM) (now : ℚ)
    (h : BucketInv b) (hrate : 0 ≤ b.refillRate) :
    BucketInv (b.refill now) ∧ (b.refill now).capacity = b.capacity
      ∧ (b.refill now).refillRate = b.refillRate := by
  obtain ⟨h0, h1⟩ := h
  have hcap : 0 ≤ b.capacity := le_trans h0 h1
  by_cases he : 0 < now - b.lastRefill
  · have hb : b.refill now
        = { b with tokens := min (b.tokens + (now - b.lastRefill) * b.refillRate) b.capacity
                   lastRefill := now } := by
      simp only [TokenBucketM.refill]
      rw [if_pos he]
    rw [hb]
    refine ⟨⟨?_, ?_⟩, rfl, rfl⟩
    · have hmul : 0 ≤ (now - b.lastRefill) * b.refillRate :=
        mul_nonneg (le_of_lt he) hrate
      exact le_min (by linarith) hcap
    · exact min_le_right _ _
  · have hb : b.refill now = b := by
      simp only [TokenBucketM.refill]
      rw [if_neg he]
    rw [hb]
    exact ⟨⟨h0, h1⟩, rfl, rfl⟩

theorem tryConsume_preserves (b : TokenBucketM) (cost now : ℚ)
    (h : BucketInv b) (hrate : 0 ≤ b.refillRate) (hcost : 0 ≤ cost) :
    BucketInv (b.tryConsume cost now).2
      ∧ ((b.tryConsume cost now).2).capacity = b.capacity
      ∧ ((b.tryConsume cost now).2).refillRate = b.refillRate := by
  obtain ⟨⟨hr0, hr1⟩, hrc, hrr⟩ := refill_preserves b now h hrate
  by_cases hge : cost ≤ (b.refill now).tokens
  · have hb : (b.tryConsume cost now).2
        = { b.refill now with tokens := (b.refill now).tokens - cost } := by
      simp only [TokenBucketM.tryConsume]
      rw [if_pos hge]
    rw [hb]
    refine ⟨⟨?_, ?_⟩, hrc, hrr⟩
    · show 0 ≤ (b.refill now).tokens - cost
      linarith
    · show (b.refill now).tokens - cost ≤ (b.refill now).capacity
      linarith
  · have hb : (b.tryConsume cost now).2 = b.refill now := by
      simp only [TokenBucketM.tryConsume]
      rw [if_neg hge]
    rw [hb]
    exact ⟨⟨hr0, hr1⟩, hrc, hrr⟩

theorem consumeSeq_preserves (ops : List (ℚ × Priority)) (b : TokenBucketM)
    (h : BucketInv b) (hrate : 0 ≤ b.refillRate) :
    BucketInv (consumeSeq b ops) := by
  induction ops generalizing b with
  | nil => exact h
  | cons op rest ih =>
    obtain ⟨hinv, _, hrr⟩ :=
      tryConsume_preserves b op.2.tokenCost op.1 h hrate (tokenCost_nonneg op.2)
    have : consumeSeq b (op :: rest)
        = consumeSeq (b.tryConsume op.2.tokenCost op.1).2 rest := rfl
    rw [this]
    exact ih _ hinv (by rw [hrr]; exact hrate)

/-- C9 amended: `0 ≤ tokens ≤ capacity` holds after construction and
after every consume/refill sequence, provided the configured capacity,
refill rate and initial token count are nonnegative (the code does not
clamp negative configuration values: see the counterexample); lazy
refill adds `elapsed × refill_rate` clamped to capacity, and a consume
subtracts the cost exactly when the refilled tokens cover it. -/
theorem token_bucket_invariant (capacity refillRate initial t0 : ℚ)
    (ops : List (ℚ × Priority))
    (hcap : 0 ≤ capacity) (hrate : 0 ≤ refillRate) (hinit : 0 ≤ initial) :
    BucketInv (consumeSeq (TokenBucketM.new capacity refillRate initial t0) ops) ∧
    (∀ b : TokenBucketM, ∀ now : ℚ, 0 < now - b.lastRefill →
      (b.refill now).tokens
        = min (b.tokens + (now - b.lastRefill) * b.refillRate) b.capacity) ∧
    (∀ b : TokenBucketM, ∀ cost now : ℚ,
      ((b.tryConsume cost now).1 = true ↔ cost ≤ (b.refill now).tokens) ∧
      (b.tryConsume cost now).2.tokens
        = (if cost ≤ (b.refill now).tokens then (b.refill now).tokens - cost
           else (b.refill now).tokens)) := by
  refine ⟨?_, ?_, ?_⟩
  · apply consumeSeq_preserves
    · exact ⟨le_min hinit hcap, min_le_right _ _⟩
    · exact hrate
  · intro b now he
    simp [TokenBucketM.refill, he]
  · intro b cost now
    constructor
    · unfold TokenBucketM.tryConsume
      by_cases hge : cost ≤ (b.refill now).tokens <;> simp [hge]
    · unfold TokenBucketM.tryConsume
      by_cases hge : cost ≤ (b.refill now).tokens <;> simp [hge]

/-- Witness for `token_bucket_invariant`: the default configuration
(capacity 200, refill 60/s, initial 200) with two dispatch attempts. -/
theorem token_bucket_invariant_witness :
    BucketInv (consumeSeq (TokenBucketM.new 200 60 200 0)
      [(1, Priority.critical), (2, Priority.info)]) :=
  (token_bucket_invariant 200 60 200 0 [(1, Priority.critical), (2, Priority.info)]
    (by norm_num) (by norm_num) (by norm_num)).1

/-- C9 counterexample: `token_bucket_initial = -1` passes through
`from_router_config` unclamped (only the `initial > capacity` direction
is clamped) and `TokenBucket::new` keeps `min(-1, 200) = -1`, so
`0 ≤ tokens` fails immediately after construction. -/
theorem token_bucket_counterexample :
    (DispatcherConfigM.fromRouterConfig
        (some ⟨none, none, some (-1), none, none, none⟩)).initialTokens = -1 ∧
    (TokenBucketM.new
        (DispatcherConfigM.fromRouterConfig
          (some ⟨none, none, some (-1), none, none, none⟩)).tokenCapacity
        (DispatcherConfigM.fromRouterConfig
          (some ⟨none, none, some (-1), none, none, none⟩)).tokenRefillRate
        (DispatcherConfigM.fromRouterConfig
          (some ⟨none, none, some (-1), none, none, none⟩)).initialTokens
        0).tokens < 0 := by
  constructor
  · norm_num [DispatcherConfigM.fromRouterConfig, dispatcherConfigDefault]
  · norm_num [DispatcherConfigM.fromRouterConfig, dispatcherConfigDefault,
      TokenBucketM.new]

/-! ## C10 — reading a nonexistent or empty epoch -/

/-- C10: `read_epoch` on an epoch id whose directory does not exist
returns `Ok([])` rather than an error, and `verify_epoch` on a
nonexistent (or empty) epoch returns `Ok(true)`. -/
theorem read_missing_epoch (codec : CodecM)
    (fs : String → Option (List (List SegmentLineM))) (epochId : String) :
    (fs epochId = none →
      readEpochM fs epochId = .ok [] ∧ verifyEpochM codec fs epochId = .ok true) ∧
    (fs epochId = some [] →
      readEpochM fs epochId = .ok [] ∧ verifyEpochM codec fs epochId = .ok true) := by
  constructor
  · intro h
    constructor
    · simp [readEpochM, h]
    · simp [verifyEpochM, readEpochM, h, verifyEnvs, verifyFrom]
  · intro h
    constructor
    · simp [readEpochM, h, readSegments]
    · simp [verifyEpochM, readEpochM, h, readSegments, verifyEnvs, verifyFrom]

/-- Witness for `read_missing_epoch`: the empty file system and epoch
`"epoch-1"`. -/
theorem read_missing_epoch_witness :
    readEpochM (fun _ => none) "epoch-1" = .ok [] ∧
      verifyEpochM trivialCodec (fun _ => none) "epoch-1" = .ok true :=
  (read_missing_epoch trivialCodec (fun _ => none) "epoch-1").1 rfl

/-! ## C2 — per-event atomicity of append -/

def write1FailOracle : AppendOracle := ⟨false, false, false, false, true, false, false⟩

/-- C2 counterexample: with no rotation due, a failing first `write_all`
aborts the append with an I/O error, yet the writer state is changed:
the sequence has advanced from 0 to 1 and `prev_hash` has been replaced
by the new chain hash. -/
theorem append_counterexample :
    (appendM trivialCodec smallLedgerCfg "e" write1FailOracle (WriterStateM.new 0)
        hlcDefault sampleHealthEvent 0).result = .error .ioError ∧
    (appendM trivialCodec smallLedgerCfg "e" write1FailOracle (WriterStateM.new 0)
        hlcDefault sampleHealthEvent 0).state.sequence = 1 ∧
    (WriterStateM.new 0).sequence = 0 ∧
    (appendM trivialCodec smallLedgerCfg "e" write1FailOracle (WriterStateM.new 0)
        hlcDefault sampleHealthEvent 0).state.prevHash = "0#S" ∧
    (WriterStateM.new 0).prevHash = "0" := by
  refine ⟨?_, ?_, rfl, ?_, rfl⟩ <;>
    simp [appendM, write1FailOracle, trivialCodec, smallLedgerCfg,
      WriterStateM.new, WriterStateM.shouldRotate, satAdd64, u64Max]

/-- C2 amended: on success the fully-hashed line is written and flushed
and the counters advance; on an error the failed line contributes
nothing to the flushed segment content or the byte accounting, but
mutations made before the failing step persist — a due rotation leaves
the segment index advanced and the byte counter reset, and a failure at
or after the hash-chain step leaves the sequence incremented and
`prev_hash` replaced.  The state is unchanged exactly in the early error
case (event-serialization failure with no rotation due). -/
theorem append_atomicity (codec : CodecM) (cfg : LedgerRuntimeConfigM)
    (epochId : String) (o : AppendOracle) (state : WriterStateM)
    (clock : HybridLogicalClock) (event : LedgerEventM) (now : Nat) :
    ((appendM codec cfg epochId o state clock event now).result.isOk = true →
      ∃ env : EventEnvelopeM,
        (appendM codec cfg epochId o state clock event now).result = .ok env ∧
        env.sequence = satAdd64 state.sequence 1 ∧
        env.hashChain = codec.hashConcat state.prevHash (codec.serSans env.withoutHash) ∧
        (appendM codec cfg epochId o state clock event now).state.sequence = env.sequence ∧
        (appendM codec cfg epochId o state clock event now).state.prevHash = env.hashChain ∧
        (appendM codec cfg epochId o state clock event now).state.flushedLines
          = state.flushedLines
              ++ [(if state.shouldRotate now cfg then "" else state.buffer)
                    ++ codec.serEnv env ++ "\n"]) ∧
    ((appendM codec cfg epochId o state clock event now).result.isOk = false →
      (appendM codec cfg epochId o state clock event now).state.flushedLines
          = state.flushedLines ∧
      (appendM codec cfg epochId o state clock event now).state.bytesWritten
        = (if state.shouldRotate now cfg then 0 else state.bytesWritten) ∧
      (appendM codec cfg epochId o state clock event now).state.segmentIndex
        = (if state.shouldRotate now cfg then satAdd32 state.segmentIndex 1
           else state.segmentIndex) ∧
      ((appendM codec cfg epochId o state clock event now).state.sequence = state.sequence ∨
       (appendM codec cfg epochId o state clock event now).state.sequence
         = satAdd64 state.sequence 1) ∧
      ((appendM codec cfg epochId o state clock event now).state.prevHash = state.prevHash ∨
       (appendM codec cfg epochId o state clock event now).state.prevHash
         = codec.hashConcat state.prevHash
             (codec.serSans
               ⟨epochId, satAdd64 state.sequence 1, (clock.tick now).2,
                event.metadata, codec.digest (codec.serEvent event), event⟩))) ∧
    (state.shouldRotate now cfg = false → o.serEventFails = true →
      (appendM codec cfg epochId o state clock event now).result.isOk = false ∧
      (appendM codec cfg epochId o state clock event now).state = state) := by
  obtain ⟨o1, o2, o3, o4, o5, o6, o7⟩ := o
  rcases Bool.eq_false_or_eq_true (state.shouldRotate now cfg) with hrot | hrot <;>
    cases o1 <;> cases o2 <;> cases o3 <;> cases o4 <;> cases o5 <;> cases o6 <;>
    cases o7 <;>
    simp [appendM, hrot, Except.isOk, Except.toBool, EventEnvelopeM.withoutHash]

/-- Witness for `append_atomicity`: the early-error case at a concrete
input (no rotation due, event serialization failing). -/
theorem append_atomicity_witness :
    (appendM trivialCodec smallLedgerCfg "e" ⟨false, true, false, false, false, false, false⟩
        (WriterStateM.new 0) hlcDefault sampleHealthEvent 0).result.isOk = false ∧
    (appendM trivialCodec smallLedgerCfg "e" ⟨false, true, false, false, false, false, false⟩
        (WriterStateM.new 0) hlcDefault sampleHealthEvent 0).state = WriterStateM.new 0 :=
  (append_atomicity trivialCodec smallLedgerCfg "e"
      ⟨false, true, false, false, false, false, false⟩
      (WriterStateM.new 0) hlcDefault sampleHealthEvent 0).2.2
    (by decide) rfl

/-! ## C3 — the hash chain and epoch verification -/

/-- The chain property of the claim, threaded with the predecessor hash:
each stored envelope's `hash_chain` is the hash of the previous chain
value (the literal `"0"` for the first envelope) concatenated with the
envelope serialized without its `hash_chain` field. -/
def chainOkFrom (codec : CodecM) (prevHash : String) : List EventEnvelopeM → Prop
  | [] => True
  | env :: rest =>
    env.hashChain = codec.hashConcat prevHash (codec.serSans env.withoutHash) ∧
    chainOkFrom codec env.hashChain rest

theorem verifyFrom_iff (codec : CodecM) (envs : List EventEnvelopeM) :
    ∀ prevHash, verifyFrom codec prevHash envs = true ↔ chainOkFrom codec prevHash envs := by
  induction envs with
  | nil => intro prevHash; simp [verifyFrom, chainOkFrom]
  | cons env rest ih =>
    intro prevHash
    simp only [verifyFrom, chainOkFrom]
    by_cases h : codec.hashConcat prevHash (codec.serSans env.withoutHash) = env.hashChain
    · rw [if_pos h]
      rw [ih env.hashChain]
      constructor
      · exact fun hr => ⟨h.symm, hr⟩
      · exact fun hr => hr.2
    · rw [if_neg h]
      constructor
      · intro hfalse
        exact absurd hfalse (by simp)
      · intro hr
        exact absurd hr.1.symm h

theorem appendM_ok_spec (codec : CodecM) (cfg : LedgerRuntimeConfigM)
    (epochId : String) (state : WriterStateM) (clock : HybridLogicalClock)
    (event : LedgerEventM) (now : Nat) :
    ∃ env : EventEnvelopeM,
      (appendM codec cfg epochId okOracle state clock event now).result = .ok env ∧
      env.hashChain = codec.hashConcat state.prevHash (codec.serSans env.withoutHash) ∧
      (appendM codec cfg epochId okOracle state clock event now).state.prevHash
        = env.hashChain := by
  by_cases hrot : state.shouldRotate now cfg <;>
    simp only [appendM, okOracle, hrot, Bool.and_false, if_true, if_false,
      Bool.false_eq_true, ite_true, ite_false] <;>
    exact ⟨_, rfl, rfl, rfl⟩

theorem writeChainGo_chainOk (codec : CodecM) (cfg : LedgerRuntimeConfigM)
    (epochId : String) (events : List (LedgerEventM × Nat)) :
    ∀ (state : WriterStateM) (clock : HybridLogicalClock),
      chainOkFrom codec state.prevHash (writeChainGo codec cfg epochId state clock events) := by
  induction events with
  | nil => intro state clock; exact trivial
  | cons pair rest ih =>
    intro state clock
    obtain ⟨env, henv, hchain, hprev⟩ :=
      appendM_ok_spec codec cfg epochId state clock pair.1 pair.2
    have hgo : writeChainGo codec cfg epochId state clock (pair :: rest)
        = env :: writeChainGo codec cfg epochId
            (appendM codec cfg epochId okOracle state clock pair.1 pair.2).state
            (appendM codec cfg epochId okOracle state clock pair.1 pair.2).clock rest := by
      show (match (appendM codec cfg epochId okOracle state clock pair.1 pair.2).result with
        | .ok env => env :: writeChainGo codec cfg epochId
            (appendM codec cfg epochId okOracle state clock pair.1 pair.2).state
            (appendM codec cfg epochId okOracle state clock pair.1 pair.2).clock rest
        | .error _ => []) = _
      rw [henv]
    rw [hgo]
    refine ⟨hchain, ?_⟩
    have := ih (appendM codec cfg epochId okOracle state clock pair.1 pair.2).state
      (appendM codec cfg epochId okOracle state clock pair.1 pair.2).clock
    rwa [hprev] at this

/-- C3: every epoch produced by successful appends on a single writer
satisfies the chain property (first predecessor hash `"0"`), and
`verify_epoch` returns `true` exactly on envelope lists satisfying that
property — in particular it returns `true` on the unmodified epoch and
`false` whenever some step mismatches. -/
theorem hash_chain_verify (codec : CodecM) (cfg : LedgerRuntimeConfigM)
    (epochId : String) (events : List (LedgerEventM × Nat)) :
    chainOkFrom codec "0" (writeChain codec cfg epochId events) ∧
    verifyEnvs codec (writeChain codec cfg epochId events) = true ∧
    (∀ envs : List EventEnvelopeM,
      verifyEnvs codec envs = true ↔ chainOkFrom codec "0" envs) := by
  have hchain : chainOkFrom codec "0" (writeChain codec cfg epochId events) :=
    writeChainGo_chainOk codec cfg epochId events (WriterStateM.new 0) hlcDefault
  refine ⟨hchain, ?_, fun envs => verifyFrom_iff codec envs "0"⟩
  exact (verifyFrom_iff codec _ "0").mpr hchain

/-! ## C1 — replay round-trip -/

theorem replay_foldl_states (envelopes : List EventEnvelopeM) :
    ∀ (o : ReplayOutcomeM),
      ((envelopes.foldl replayStep o).router, (envelopes.foldl replayStep o).leases)
        = List.foldl
            (fun (s : RouterReplayStateM × LeaseReplayStateM) event =>
              match event with
              | LedgerEventM.router (RouterEventM.dispatched record) =>
                (s.1.applyDispatch record, s.2)
              | LedgerEventM.lease e => (s.1, s.2.apply e)
              | LedgerEventM.checkpoint c => (c.router, c.leases)
              | _ => s)
            (o.router, o.leases) (envelopes.map (fun env => env.event)) := by
  induction envelopes with
  | nil => intro o; rfl
  | cons env rest ih =>
    intro o
    rw [List.map_cons, List.foldl_cons, List.foldl_cons]
    rw [ih (replayStep o env)]
    congr 1
    cases henv : env.event with
    | router e =>
      cases e with
      | dispatched record => simp [replayStep, henv]
      | rateLimited record => simp [replayStep, henv]
    | lease e => simp [replayStep, henv]
    | consensus e => simp [replayStep, henv]
    | pty e => simp [replayStep, henv]
    | health e => simp [replayStep, henv]
    | checkpoint c => simp [replayStep, henv]

/-- C1: for every envelope list read back from an epoch, `replay_epoch`
yields the same router counters (`total_dispatched`, `last_priority`,
`queue_depths`) and lease counters (`active` map, `deferrals`,
`overrides`, `escalations`) as applying the carried events incrementally
in order (`incrementalFold`), with a checkpoint event replacing the
accumulated state by its embedded snapshot; and replay is a function of
the envelope list alone, hence deterministic on equal input. -/
theorem replay_roundtrip (envelopes : List EventEnvelopeM) :
    (replayEpoch envelopes).router = (incrementalFold (envelopes.map (fun env => env.event))).1 ∧
    (replayEpoch envelopes).leases = (incrementalFold (envelopes.map (fun env => env.event))).2 ∧
    (∀ envelopes' : List EventEnvelopeM,
      envelopes = envelopes' → replayEpoch envelopes = replayEpoch envelopes') := by
  have h := replay_foldl_states envelopes replayOutcomeDefault
  have h1 := congrArg Prod.fst h
  have h2 := congrArg Prod.snd h
  exact ⟨h1, h2, fun envelopes' he => by rw [he]⟩

/-! ## C4 — aging invariants -/

theorem mem_set_cases {α : Type _} {l : List α} {i : Nat} {x y : α}
    (h : y ∈ l.set i x) : y = x ∨ y ∈ l := by
  induction l generalizing i with
  | nil => simp at h
  | cons a t ih =>
    cases i with
    | zero =>
      rcases List.mem_cons.mp h with h | h
      · exact Or.inl h
      · exact Or.inr (List.mem_cons_of_mem a h)
    | succ j =>
      rcases List.mem_cons.mp h with h | h
      · exact Or.inr (h ▸ List.mem_cons_self a t)
      · rcases ih h with h | h
        · exact Or.inl h
        · exact Or.inr (List.mem_cons_of_mem a h)

theorem getD_mem {α : Type _} (l : List α) (i : Nat) (d : α) (h : i < l.length) :
    l.getD i d ∈ l := by
  induction l generalizing i with
  | nil => simp at h
  | cons a t ih =>
    cases i with
    | zero => exact List.mem_cons_self a t
    | succ j => exact List.mem_cons_of_mem a (ih j (by simpa using h))

theorem mem_of_mem_eraseIdx {α : Type _} {l : List α} {i : Nat} {y : α}
    (h : y ∈ l.eraseIdx i) : y ∈ l := by
  induction l generalizing i with
  | nil => simp [List.eraseIdx] at h
  | cons a t ih =>
    cases i with
    | zero => exact List.mem_cons_of_mem a h
    | succ j =>
      rcases List.mem_cons.mp h with h | h
      · exact h ▸ List.mem_cons_self a t
      · exact List.mem_cons_of_mem a (ih h)

theorem asIndex_fromIndex (k : Nat) (hk : k ≤ 4) :
    (Priority.fromIndex k).asIndex = k := by
  interval_cases k <;> rfl

theorem boost_one_asIndex (p : Priority) :
    (p.boost 1).asIndex = min (p.asIndex + 1) 3 := by
  cases p <;> rfl

theorem asIndex_le_four (p : Priority) : p.asIndex ≤ 4 := by
  cases p <;> simp [Priority.asIndex]

theorem priority_of_asIndex_four (p : Priority) (h : p.asIndex = 4) :
    p = .directorOverride := by
  cases p <;> simp_all [Priority.asIndex]

/-- Per-entry invariant of the router queues at tier index `i`: the
entry sits in the queue of its effective tier, its boost counter is
bounded, below the top tier the effective tier is the declared tier plus
the boosts received (capped at `critical`), and the top tier holds only
messages declared `directorOverride`. -/
def EntryInv (cfg : DispatcherConfigM) (i : Nat) (m : QueuedMessageM) : Prop :=
  m.effectivePriority.asIndex = i ∧
  m.agingBoosts ≤ cfg.maxAgingBoosts ∧
  (i ≤ 3 → m.message.priority.asIndex ≤ 3 ∧
    m.effectivePriority.asIndex = min (m.message.priority.asIndex + m.agingBoosts) 3) ∧
  (i = 4 → m.message.priority = Priority.directorOverride)

/-- The router-queue invariant: five tiers, each entry in the queue of
its effective tier with `EntryInv`. -/
def Inv (cfg : DispatcherConfigM) (queues : List (List QueuedMessageM)) : Prop :=
  queues.length = 5 ∧
  ∀ i, i < queues.length → ∀ m ∈ queues.getD i [], EntryInv cfg i m

instance (cfg : DispatcherConfigM) (i : Nat) (m : QueuedMessageM) :
    Decidable (EntryInv cfg i m) := by
  unfold EntryInv
  infer_instance

instance (cfg : DispatcherConfigM) (queues : List (List QueuedMessageM)) :
    Decidable (Inv cfg queues) := by
  unfold Inv
  infer_instance

/-- `b` is the same queued message as `a` after zero or more aging
boosts: the immutable fields are unchanged and the effective tier and
boost counter are non-decreasing. -/
def Evolves (a b : QueuedMessageM) : Prop :=
  b.message = a.message ∧ b.enqueuedAt = a.enqueuedAt ∧
  b.retryCount = a.retryCount ∧ b.lastAttemptAt = a.lastAttemptAt ∧
  a.effectivePriority.asIndex ≤ b.effectivePriority.asIndex ∧
  a.agingBoosts ≤ b.agingBoosts

/-- Membership in any of the queues. -/
def inQueues (m : QueuedMessageM) (queues : List (List QueuedMessageM)) : Prop :=
  ∃ q ∈ queues, m ∈ q

theorem evolves_refl (m : QueuedMessageM) : Evolves m m :=
  ⟨rfl, rfl, rfl, rfl, le_refl _, le_refl _⟩

theorem evolves_trans {a b c : QueuedMessageM}
    (h1 : Evolves a b) (h2 : Evolves b c) : Evolves a c := by
  obtain ⟨e1, e2, e3, e4, e5, e6⟩ := h1
  obtain ⟨f1, f2, f3, f4, f5, f6⟩ := h2
  exact ⟨f1.trans e1, f2.trans e2, f3.trans e3, f4.trans e4,
    e5.trans f5, e6.trans f6⟩

theorem evolves_boost (m : QueuedMessageM)
    (hm : m.effectivePriority.asIndex ≤ 3) : Evolves m (boostMsg m) := by
  refine ⟨rfl, rfl, rfl, rfl, ?_, Nat.le_succ _⟩
  show m.effectivePriority.asIndex ≤ (m.effectivePriority.boost 1).asIndex
  rw [boost_one_asIndex]
  omega

theorem eligible_boosts_lt {m : QueuedMessageM} {now threshold maxBoosts : Nat}
    (hb : m.eligibleForBoost now threshold maxBoosts = true) :
    m.agingBoosts < maxBoosts := by
  simp only [QueuedMessageM.eligibleForBoost, Bool.and_eq_true, decide_eq_true_eq] at hb
  exact hb.1

/-- The queue layout after one boost step, per target index. -/
theorem getD_boost_step (queues : List (List QueuedMessageM)) (p index b : Nat)
    (m' : QueuedMessageM) (hp : p < queues.length) (hb : b < queues.length) (j : Nat) :
    ((queues.set p ((queues.getD p []).eraseIdx index)).set b
      ((queues.set p ((queues.getD p []).eraseIdx index)).getD b [] ++ [m'])).getD j []
    = if j = b then
        (if b = p then (queues.getD p []).eraseIdx index else queues.getD b []) ++ [m']
      else if j = p then (queues.getD p []).eraseIdx index
      else queues.getD j [] := by
  by_cases hjb : j = b
  · subst hjb
    rw [if_pos rfl, getD_set_self _ j _ [] (by simpa using hb)]
    by_cases hjp : j = p
    · subst hjp
      rw [if_pos rfl, getD_set_self _ j _ [] hp]
    · rw [if_neg hjp, getD_set_ne _ j p _ [] (fun hh => hjp hh.symm)]
  · rw [if_neg hjb, getD_set_ne _ j b _ [] (fun hh => hjb hh.symm)]
    by_cases hjp : j = p
    · subst hjp
      rw [if_pos rfl, getD_set_self _ j _ [] hp]
    · rw [if_neg hjp, getD_set_ne _ j p _ [] (fun hh => hjp hh.symm)]

theorem step_inv (cfg : DispatcherConfigM) (now : Nat)
    (queues : List (List QueuedMessageM)) (p index : Nat)
    (hp : p ≤ 3) (hInv : Inv cfg queues)
    (h : index < (queues.getD p []).length)
    (hb : ((queues.getD p []).get ⟨index, h⟩).eligibleForBoost
        now cfg.agingThreshold cfg.maxAgingBoosts = true) :
    Inv cfg ((queues.set p ((queues.getD p []).eraseIdx index)).set
      (boostMsg ((queues.getD p []).get ⟨index, h⟩)).effectivePriority.asIndex
      ((queues.set p ((queues.getD p []).eraseIdx index)).getD
        (boostMsg ((queues.getD p []).get ⟨index, h⟩)).effectivePriority.asIndex []
        ++ [boostMsg ((queues.getD p []).get ⟨index, h⟩)])) := by
  obtain ⟨hlen, hent⟩ := hInv
  have hplt : p < queues.length := by omega
  have hmem : (queues.getD p []).get ⟨index, h⟩ ∈ queues.getD p [] := List.get_mem _ _ _
  have hEm := hent p hplt _ hmem
  obtain ⟨heff, hboosts, hlow, _⟩ := hEm
  have hbi : (boostMsg ((queues.getD p []).get ⟨index, h⟩)).effectivePriority.asIndex
      = min (p + 1) 3 := by
    show (((queues.getD p []).get ⟨index, h⟩).effectivePriority.boost 1).asIndex = _
    rw [boost_one_asIndex, heff]
  have hblt : (boostMsg ((queues.getD p []).get ⟨index, h⟩)).effectivePriority.asIndex
      < queues.length := by omega
  constructor
  · rw [List.length_set, List.length_set]
    exact hlen
  · intro j hj m'' hm''
    rw [List.length_set, List.length_set] at hj
    rw [getD_boost_step queues p index _ _ hplt hblt j] at hm''
    by_cases hjb : j = (boostMsg ((queues.getD p []).get ⟨index, h⟩)).effectivePriority.asIndex
    · rw [if_pos hjb] at hm''
      rcases List.mem_append.mp hm'' with hold | hnew
      · by_cases hbp :
            (boostMsg ((queues.getD p []).get ⟨index, h⟩)).effectivePriority.asIndex = p
        · rw [if_pos hbp] at hold
          have := hent p hplt m'' (mem_of_mem_eraseIdx hold)
          rw [hjb, hbp]
          exact this
        · rw [if_neg hbp] at hold
          have := hent _ (by omega :
            (boostMsg ((queues.getD p []).get ⟨index, h⟩)).effectivePriority.asIndex
              < queues.length) m'' hold
          rw [hjb]
          exact this
      · have hmeq : m'' = boostMsg ((queues.getD p []).get ⟨index, h⟩) := by
          simpa using hnew
        subst hmeq
        obtain ⟨hdecl3, heffeq⟩ := hlow hp
        refine ⟨hjb.symm, ?_, ?_, ?_⟩
        · have := eligible_boosts_lt hb
          show ((queues.getD p []).get ⟨index, h⟩).agingBoosts + 1 ≤ cfg.maxAgingBoosts
          omega
        · intro _
          refine ⟨hdecl3, ?_⟩
          rw [hbi]
          show min (p + 1) 3
            = min (((queues.getD p []).get ⟨index, h⟩).message.priority.asIndex
                + (((queues.getD p []).get ⟨index, h⟩).agingBoosts + 1)) 3
          omega
        · intro hj4
          rw [hjb, hbi] at hj4
          omega
    · rw [if_neg hjb] at hm''
      by_cases hjp : j = p
      · subst hjp
        rw [if_pos rfl] at hm''
        exact hent j hplt m'' (mem_of_mem_eraseIdx hm'')
      · rw [if_neg hjp] at hm''
        exact hent j hj m'' hm''

theorem step_membership (cfg : DispatcherConfigM) (_now : Nat)
    (queues : List (List QueuedMessageM)) (p index : Nat)
    (hp : p ≤ 3) (hInv : Inv cfg queues)
    (h : index < (queues.getD p []).length) :
    ∀ m'', inQueues m''
        ((queues.set p ((queues.getD p []).eraseIdx index)).set
          (boostMsg ((queues.getD p []).get ⟨index, h⟩)).effectivePriority.asIndex
          ((queues.set p ((queues.getD p []).eraseIdx index)).getD
            (boostMsg ((queues.getD p []).get ⟨index, h⟩)).effectivePriority.asIndex []
            ++ [boostMsg ((queues.getD p []).get ⟨index, h⟩)])) →
      ∃ m, inQueues m queues ∧ Evolves m m'' := by
  obtain ⟨hlen, hent⟩ := hInv
  have hplt : p < queues.length := by omega
  have hmem : (queues.getD p []).get ⟨index, h⟩ ∈ queues.getD p [] :=
    List.get_mem _ _ _
  have heff := (hent p hplt _ hmem).1
  have hbi : (boostMsg ((queues.getD p []).get ⟨index, h⟩)).effectivePriority.asIndex
      = min (((queues.getD p []).get ⟨index, h⟩).effectivePriority.asIndex + 1) 3 := by
    show (((queues.getD p []).get ⟨index, h⟩).effectivePriority.boost 1).asIndex = _
    rw [boost_one_asIndex]
  have hblt : (boostMsg ((queues.getD p []).get ⟨index, h⟩)).effectivePriority.asIndex
      < queues.length := by omega
  intro m'' hm''
  obtain ⟨qlist, hql, hmq⟩ := hm''
  rcases mem_set_cases hql with hqeq | hql'
  · subst hqeq
    rcases List.mem_append.mp hmq with hold | hnew
    · by_cases hbp :
          (boostMsg ((queues.getD p []).get ⟨index, h⟩)).effectivePriority.asIndex = p
      · rw [hbp, getD_set_self _ p _ [] hplt] at hold
        exact ⟨m'', ⟨queues.getD p [], getD_mem _ _ [] hplt,
          mem_of_mem_eraseIdx hold⟩, evolves_refl m''⟩
      · rw [getD_set_ne _ _ p _ [] (fun hh => hbp hh.symm)] at hold
        exact ⟨m'', ⟨queues.getD _ [], getD_mem _ _ [] hblt, hold⟩, evolves_refl m''⟩
    · have hmeq : m'' = boostMsg ((queues.getD p []).get ⟨index, h⟩) := by
        simpa using hnew
      subst hmeq
      exact ⟨_, ⟨queues.getD p [], getD_mem _ _ [] hplt, hmem⟩,
        evolves_boost _ (by omega)⟩
  · rcases mem_set_cases hql' with hqeq | hqlq
    · subst hqeq
      exact ⟨m'', ⟨queues.getD p [], getD_mem _ _ [] hplt,
        mem_of_mem_eraseIdx hmq⟩, evolves_refl m''⟩
    · exact ⟨m'', ⟨qlist, hqlq, hmq⟩, evolves_refl m''⟩

theorem scanQueue_props (cfg : DispatcherConfigM) (now : Nat)
    (queues : List (List QueuedMessageM)) (p index : Nat)
    (hp : p ≤ 3) (hInv : Inv cfg queues) :
    Inv cfg (scanQueue cfg now queues p index) ∧
    ∀ m', inQueues m' (scanQueue cfg now queues p index) →
      ∃ m, inQueues m queues ∧ Evolves m m' := by
  induction queues, p, index using scanQueue.induct cfg now with
  | case1 queues p index h hb ih =>
    have hstep : scanQueue cfg now queues p index
        = scanQueue cfg now
            ((queues.set p ((queues.getD p []).eraseIdx index)).set
              (boostMsg ((queues.getD p []).get ⟨index, h⟩)).effectivePriority.asIndex
              ((queues.set p ((queues.getD p []).eraseIdx index)).getD
                (boostMsg ((queues.getD p []).get ⟨index, h⟩)).effectivePriority.asIndex []
                ++ [boostMsg ((queues.getD p []).get ⟨index, h⟩)]))
            p index := by
      conv_lhs => rw [scanQueue]
      rw [dif_pos h, if_pos hb]
    obtain ⟨ihInv, ihMem⟩ := ih hp (step_inv cfg now queues p index hp hInv h hb)
    rw [hstep]
    refine ⟨ihInv, ?_⟩
    intro m' hm'
    obtain ⟨m0, hm0, hev⟩ := ihMem m' hm'
    obtain ⟨m1, hm1, hev1⟩ := step_membership cfg now queues p index hp hInv h m0 hm0
    exact ⟨m1, hm1, evolves_trans hev1 hev⟩
  | case2 queues p index h hb ih =>
    have hstep : scanQueue cfg now queues p index
        = scanQueue cfg now queues p (index + 1) := by
      conv_lhs => rw [scanQueue]
      rw [dif_pos h, if_neg hb]
    rw [hstep]
    exact ih hp hInv
  | case3 queues p index h =>
    have hstep : scanQueue cfg now queues p index = queues := by
      conv_lhs => rw [scanQueue]
      rw [dif_neg h]
    rw [hstep]
    exact ⟨hInv, fun m' hm' => ⟨m', hm', evolves_refl m'⟩⟩

theorem scanFold_props (cfg : DispatcherConfigM) (now : Nat) (ps : List Nat)
    (hps : ∀ p ∈ ps, p ≤ 3) :
    ∀ queues, Inv cfg queues →
      Inv cfg (ps.foldl (fun qs p => scanQueue cfg now qs p 0) queues) ∧
      ∀ m', inQueues m' (ps.foldl (fun qs p => scanQueue cfg now qs p 0) queues) →
        ∃ m, inQueues m queues ∧ Evolves m m' := by
  induction ps with
  | nil => exact fun queues hInv => ⟨hInv, fun m' hm' => ⟨m', hm', evolves_refl m'⟩⟩
  | cons p rest ih =>
    intro queues hInv
    rw [List.foldl_cons]
    obtain ⟨hInv1, hMem1⟩ :=
      scanQueue_props cfg now queues p 0 (hps p (List.mem_cons_self p rest)) hInv
    obtain ⟨hInv2, hMem2⟩ :=
      ih (fun q hq => hps q (List.mem_cons_of_mem p hq)) (scanQueue cfg now queues p 0) hInv1
    refine ⟨hInv2, ?_⟩
    intro m' hm'
    obtain ⟨m0, hm0, hev⟩ := hMem2 m' hm'
    obtain ⟨m1, hm1, hev1⟩ := hMem1 m0 hm0
    exact ⟨m1, hm1, evolves_trans hev1 hev⟩

theorem applyAging_props (cfg : DispatcherConfigM) (now : Nat)
    (queues : List (List QueuedMessageM)) (hInv : Inv cfg queues) :
    Inv cfg (applyAging cfg now queues) ∧
    ∀ m', inQueues m' (applyAging cfg now queues) →
      ∃ m, inQueues m queues ∧ Evolves m m' := by
  unfold applyAging
  have hlen : queues.length = 5 := hInv.1
  have hne : queues.isEmpty = false := by
    cases queues with
    | nil => simp at hlen
    | cons q rest => rfl
  rw [hne]
  simp only [Bool.false_eq_true, if_false]
  refine scanFold_props cfg now (List.range (queues.length - 1)) ?_ queues hInv
  intro p hpmem
  have := List.mem_range.mp hpmem
  omega

theorem applyAgingSeq_props (cfg : DispatcherConfigM) (times : List Nat) :
    ∀ queues, Inv cfg queues →
      Inv cfg (applyAgingSeq cfg times queues) ∧
      ∀ m', inQueues m' (applyAgingSeq cfg times queues) →
        ∃ m, inQueues m queues ∧ Evolves m m' := by
  induction times with
  | nil => exact fun queues hInv => ⟨hInv, fun m' hm' => ⟨m', hm', evolves_refl m'⟩⟩
  | cons t rest ih =>
    intro queues hInv
    have hstep : applyAgingSeq cfg (t :: rest) queues
        = applyAgingSeq cfg rest (applyAging cfg t queues) := rfl
    rw [hstep]
    obtain ⟨hInv1, hMem1⟩ := applyAging_props cfg t queues hInv
    obtain ⟨hInv2, hMem2⟩ := ih (applyAging cfg t queues) hInv1
    refine ⟨hInv2, ?_⟩
    intro m' hm'
    obtain ⟨m0, hm0, hev⟩ := hMem2 m' hm'
    obtain ⟨m1, hm1, hev1⟩ := hMem1 m0 hm0
    exact ⟨m1, hm1, evolves_trans hev1 hev⟩

theorem enqueue_inv (cfg : DispatcherConfigM) (queues : List (List QueuedMessageM))
    (msg : MessageM) (now : Nat) (hInv : Inv cfg queues) :
    Inv cfg (enqueueMessage queues msg now) := by
  obtain ⟨hlen, hent⟩ := hInv
  have hidx : msg.priority.asIndex < queues.length := by
    have := asIndex_le_four msg.priority
    omega
  constructor
  · rw [enqueueMessage, List.length_set]
    exact hlen
  · intro i hi m hm
    rw [enqueueMessage, List.length_set] at hi
    simp only [enqueueMessage] at hm
    by_cases hieq : i = (QueuedMessageM.new msg now).effectivePriority.asIndex
    · rw [hieq, getD_set_self _ _ _ [] (by
        show msg.priority.asIndex < queues.length
        exact hidx)] at hm
      rcases List.mem_append.mp hm with hold | hnew
      · have := hent _ (by
          show msg.priority.asIndex < queues.length
          exact hidx) m hold
        rw [hieq]
        exact this
      · have hmeq : m = QueuedMessageM.new msg now := by simpa using hnew
        subst hmeq
        refine ⟨hieq.symm, Nat.zero_le _, ?_, ?_⟩
        · intro hile
          rw [hieq] at hile
          have hile' : msg.priority.asIndex ≤ 3 := hile
          refine ⟨hile', ?_⟩
          show msg.priority.asIndex = min (msg.priority.asIndex + 0) 3
          omega
        · intro hi4
          rw [hieq] at hi4
          exact priority_of_asIndex_four _ hi4
    · rw [getD_set_ne _ i _ _ [] (fun hh => hieq hh.symm)] at hm
      exact hent i hi m hm

/-- C4 amended: over any sequence of aging passes the queue invariant
holds — every entry's effective tier equals its queue tier, is at least
its declared tier, never exceeds `critical` unless the message was
declared `directorOverride` (tier 4 entries are exactly `directorOverride`
enqueues, and aging never touches or produces tier 4), and each entry's
boost counter never exceeds `max_aging_boosts`; every surviving entry
evolves from an entry of the original queues with non-decreasing
effective tier and boost counter; `route_message`'s enqueue preserves
the invariant; and each promotion step applies to an eligible entry
(waited at least `aging_threshold`, fewer than `max_aging_boosts`
boosts), raises the effective tier by exactly one level capped at
`critical` and increments the boost counter — but one aging pass may
apply that step to the same entry more than once (see the
counterexample), so a pass can raise a message by more than one level;
a message is promoted at most `max_aging_boosts` times in total. -/
theorem aging_invariants (cfg : DispatcherConfigM) (times : List Nat)
    (queues : List (List QueuedMessageM)) (hInv : Inv cfg queues) :
    Inv cfg (applyAgingSeq cfg times queues) ∧
    (∀ i, i < 5 → ∀ m' ∈ (applyAgingSeq cfg times queues).getD i [],
      m'.message.priority.asIndex ≤ m'.effectivePriority.asIndex ∧
      (m'.message.priority ≠ Priority.directorOverride →
        m'.effectivePriority.asIndex ≤ 3) ∧
      (m'.effectivePriority.asIndex = 4 →
        m'.message.priority = Priority.directorOverride) ∧
      m'.agingBoosts ≤ cfg.maxAgingBoosts) ∧
    (∀ m', inQueues m' (applyAgingSeq cfg times queues) →
      ∃ m, inQueues m queues ∧ Evolves m m') ∧
    (∀ msg : MessageM, ∀ t : Nat, Inv cfg (enqueueMessage queues msg t)) ∧
    (∀ m : QueuedMessageM, ∀ t : Nat,
      m.eligibleForBoost t cfg.agingThreshold cfg.maxAgingBoosts = true →
      (boostMsg m).agingBoosts = m.agingBoosts + 1 ∧
      (boostMsg m).agingBoosts ≤ cfg.maxAgingBoosts ∧
      (boostMsg m).effectivePriority.asIndex
        = min (m.effectivePriority.asIndex + 1) 3) := by
  obtain ⟨hInvSeq, hMemSeq⟩ := applyAgingSeq_props cfg times queues hInv
  refine ⟨hInvSeq, ?_, hMemSeq, fun msg t => enqueue_inv cfg queues msg t hInv, ?_⟩
  · intro i hi m' hm'
    have hlen := hInvSeq.1
    have hE := hInvSeq.2 i (by omega) m' hm'
    obtain ⟨heq, hboosts, hlow, hhigh⟩ := hE
    by_cases hile : i ≤ 3
    · obtain ⟨hdecl, heffeq⟩ := hlow hile
      refine ⟨by omega, fun _ => by omega, fun h4 => by omega, hboosts⟩
    · have hi4 : i = 4 := by omega
      have hover := hhigh hi4
      refine ⟨?_, ?_, fun _ => hover, hboosts⟩
      · rw [hover, heq, hi4]
        simp [Priority.asIndex]
      · intro hne
        exact absurd hover hne
  · intro m t hb
    refine ⟨rfl, ?_, ?_⟩
    · have := eligible_boosts_lt hb
      show m.agingBoosts + 1 ≤ cfg.maxAgingBoosts
      omega
    · show (m.effectivePriority.boost 1).asIndex = _
      rw [boost_one_asIndex]

/-- Configuration of the C4 counterexample: `aging_threshold` 5 ms,
`max_aging_boosts` 2. -/
def agingCexCfg : DispatcherConfigM :=
  { agingThreshold := 5, maxAgingBoosts := 2, idleBackoff := 5
    tokenCapacity := 200, tokenRefillRate := 60, initialTokens := 200 }

/-- The `info` message of the C4 counterexample at its three aging
stages. -/
def cexMsg0 : QueuedMessageM := QueuedMessageM.new ⟨"c", "s", "r", Priority.info⟩ 0

def cexMsg1 : QueuedMessageM :=
  { message := ⟨"c", "s", "r", Priority.info⟩, enqueuedAt := 0
    effectivePriority := Priority.coordinate, agingBoosts := 1
    retryCount := 0, lastAttemptAt := none }

def cexMsg2 : QueuedMessageM :=
  { message := ⟨"c", "s", "r", Priority.info⟩, enqueuedAt := 0
    effectivePriority := Priority.blocking, agingBoosts := 2
    retryCount := 0, lastAttemptAt := none }

/-- C4 counterexample: one aging pass promotes a single eligible `info`
message by TWO levels (to `blocking`), not exactly one — the entry
boosted out of tier 0 into tier 1 is scanned again later in the same
pass while still eligible, so "each aging pass promotes an eligible
entry by exactly one level" fails as stated. -/
theorem aging_counterexample :
    applyAging agingCexCfg 10 [[cexMsg0], [], [], [], []]
      = [[], [], [cexMsg2], [], []] ∧
    cexMsg0.effectivePriority = Priority.info ∧
    cexMsg2.effectivePriority = Priority.blocking ∧
    cexMsg0.eligibleForBoost 10 agingCexCfg.agingThreshold agingCexCfg.maxAgingBoosts
      = true := by
  refine ⟨?_, rfl, rfl, by decide⟩
  have h0 : scanQueue agingCexCfg 10 [[cexMsg0], [], [], [], []] 0 0
      = [[], [cexMsg1], [], [], []] := by
    rw [scanQueue]
    norm_num [agingCexCfg, cexMsg0, cexMsg1, QueuedMessageM.new,
      QueuedMessageM.eligibleForBoost, boostMsg, Priority.boost, Priority.asIndex,
      Priority.fromIndex, List.eraseIdx, List.set]
    rw [scanQueue]
    norm_num
  have h1 : scanQueue agingCexCfg 10 [[], [cexMsg1], [], [], []] 1 0
      = [[], [], [cexMsg2], [], []] := by
    rw [scanQueue]
    norm_num [agingCexCfg, cexMsg1, cexMsg2, QueuedMessageM.eligibleForBoost,
      boostMsg, Priority.boost, Priority.asIndex, Priority.fromIndex,
      List.eraseIdx, List.set]
    rw [scanQueue]
    norm_num
  have h2 : scanQueue agingCexCfg 10 [[], [], [cexMsg2], [], []] 2 0
      = [[], [], [cexMsg2], [], []] := by
    rw [scanQueue]
    norm_num [agingCexCfg, cexMsg2, QueuedMessageM.eligibleForBoost]
    rw [scanQueue]
    norm_num
  have h3 : scanQueue agingCexCfg 10 [[], [], [cexMsg2], [], []] 3 0
      = [[], [], [cexMsg2], [], []] := by
    rw [scanQueue]
    norm_num
  show applyAging agingCexCfg 10 [[cexMsg0], [], [], [], []] = _
  unfold applyAging
  norm_num [List.range_succ]
  rw [h0, h1, h2, h3]

/-- Witness for `aging_invariants`: empty queues under the default
dispatcher configuration, one aging pass at t = 1000. -/
theorem aging_invariants_witness :
    Inv dispatcherConfigDefault
      (applyAgingSeq dispatcherConfigDefault [1000] [[], [], [], [], []]) :=
  (aging_invariants dispatcherConfigDefault [1000] [[], [], [], [], []]
    (by decide)).1

/-! ## C5 — heat-map bumps on the acquire paths -/

def LeaseDecisionM.isGranted : LeaseDecisionM → Bool
  | .granted _ => true
  | _ => false

def LeaseDecisionM.isOverridden : LeaseDecisionM → Bool
  | .overridden _ _ => true
  | _ => false

theorem enqueue_handle_resource (st : TerritoryStateM) (policy : TerritoryPolicyM)
    (request : LeaseRequestM) (t : Nat) (s : NegotiationStateM) (d : Option Nat) :
    ((st.enqueue policy request t s d).2.1).resourceId = request.resourceId := by
  simp [TerritoryStateM.enqueue]

/-- C5 amended: the override, queue and defer paths of `acquire_lease`
invoke `bump(resource, now)` on the heat map (which also republishes the
summary to metrics); the uncontested grant path does NOT bump — it only
republishes the heat summary (`publish_heat_summary`, i.e. `summary(now)`
with no increment).  Equivalently: a bump effect occurs iff the decision
is not `Granted`, and a bump-free summary publication occurs iff it is. -/
theorem acquire_heat_effects (policy : TerritoryPolicyM) (st : TerritoryStateM)
    (request : LeaseRequestM) (now : Nat) :
    (EffectM.bumpHeat request.resourceId ∈ (acquireLease policy st request now).2.2 ↔
      ((acquireLease policy st request now).2.1).isGranted = false) ∧
    (EffectM.publishHeatSummary ∈ (acquireLease policy st request now).2.2 ↔
      ((acquireLease policy st request now).2.1).isGranted = true) := by
  unfold acquireLease
  cases hlook : assocLookup st.leases request.resourceId with
  | none => simp [LeaseDecisionM.isGranted]
  | some active =>
    by_cases hov : (policy.overridePriorityDelta : ℤ)
        ≤ (request.priority.asIndex : ℤ) - (active.priority.asIndex : ℤ)
    · simp [hov, LeaseDecisionM.isGranted]
    · by_cases hdef : active.expiresAt - now ≤ policy.autoExtendThresholdMs <;>
        · simp only [hov, hdef, if_true, if_false, ite_true, ite_false, if_neg, if_pos]
          split <;>
            simp [LeaseDecisionM.isGranted, enqueue_handle_resource, hdef]

/-- C5 counterexample: an uncontested grant on resource `"R"` produces
no `bump` call — only the summary publication — refuting "every acquire
path invokes bump". -/
theorem heat_counterexample :
    ((acquireLease territoryPolicyBaseline ⟨[], [], 1, 1⟩
        ⟨"B", "R", Priority.info, none, none, none⟩ 0).2.1).isGranted = true ∧
    EffectM.bumpHeat "R" ∉
      (acquireLease territoryPolicyBaseline ⟨[], [], 1, 1⟩
        ⟨"B", "R", Priority.info, none, none, none⟩ 0).2.2 ∧
    EffectM.publishHeatSummary ∈
      (acquireLease territoryPolicyBaseline ⟨[], [], 1, 1⟩
        ⟨"B", "R", Priority.info, none, none, none⟩ 0).2.2 := by
  refine ⟨rfl, ?_, ?_⟩ <;> decide

/-! ## C6 — the override path and its quorum -/

theorem assocLookup_insert {β : Type _} (m : List (String × β)) (k : String) (v : β) :
    assocLookup (assocInsert m k v) k = some v := by
  induction m with
  | nil => simp [assocInsert, assocLookup]
  | cons kv rest ih =>
    by_cases h : kv.1 = k
    · simp [assocInsert, h, assocLookup]
    · simp [assocInsert, h, assocLookup, List.find?]
      simpa [assocLookup] using ih

/-- C6 amended: when the requester's tier index exceeds the holder's by
at least `override_priority_delta`, the holder is displaced: the
decision is `Overridden{previous, lease}`, the lease is rewritten in
place (new holder, role, tier, granted-at, expires-at = now + default
lease duration, heartbeat, clamped progress, override count + 1), and
the consensus broker is called with reason `"override"` and exactly two
votes — the holder voting no with weight `holder_tier+1` and the
requester voting yes with weight `requester_tier+1`.  Queue waiters do
NOT vote in the override quorum (they vote only in the defer/queue
paths); the heat bump, override metric, inventory publication and
`Overridden` broadcast follow in order. -/
theorem override_quorum (policy : TerritoryPolicyM) (st : TerritoryStateM)
    (request : LeaseRequestM) (now : Nat) (active : LeaseM)
    (hlook : assocLookup st.leases request.resourceId = some active)
    (hdelta : (policy.overridePriorityDelta : ℤ)
      ≤ (request.priority.asIndex : ℤ) - (active.priority.asIndex : ℤ)) :
    (acquireLease policy st request now).2.1
      = .overridden ({ active with coordinates := request.coordinates }).snapshot
          ({ active with
              coordinates := request.coordinates
              holderId := request.agentId
              holderRole := request.holderRole
              priority := request.priority
              grantedAt := now
              expiresAt := now + policy.defaultLeaseDurationMs
              lastHeartbeatAt := now
              holderProgress := clamp01 (request.progressHint.getD 0)
              overrideCount := active.overrideCount + 1 }).snapshot ∧
    assocLookup (acquireLease policy st request now).1.leases request.resourceId
      = some { active with
          coordinates := request.coordinates
          holderId := request.agentId
          holderRole := request.holderRole
          priority := request.priority
          grantedAt := now
          expiresAt := now + policy.defaultLeaseDurationMs
          lastHeartbeatAt := now
          holderProgress := clamp01 (request.progressHint.getD 0)
          overrideCount := active.overrideCount + 1 } ∧
    (acquireLease policy st request now).2.2
      = [.bumpHeat request.resourceId,
         .recordQuorum request.resourceId
           [{ agentId := active.holderId, weight := ((active.priority.asIndex + 1 : Nat) : ℚ)
              vote := false },
            { agentId := request.agentId, weight := ((request.priority.asIndex + 1 : Nat) : ℚ)
              vote := true }]
           "override",
         .recordLeaseOverride,
         .updateLeaseInventory (inventoryOf (acquireLease policy st request now).1).1
           (inventoryOf (acquireLease policy st request now).1).2.1
           (inventoryOf (acquireLease policy st request now).1).2.2,
         .emitEvent (.overridden
           ({ active with coordinates := request.coordinates }).snapshot
           ({ active with
               coordinates := request.coordinates
               holderId := request.agentId
               holderRole := request.holderRole
               priority := request.priority
               grantedAt := now
               expiresAt := now + policy.defaultLeaseDurationMs
               lastHeartbeatAt := now
               holderProgress := clamp01 (request.progressHint.getD 0)
               overrideCount := active.overrideCount + 1 }).snapshot)] := by
  unfold acquireLease
  rw [hlook]
  simp only [if_pos hdelta]
  refine ⟨?_, ?_, ?_⟩
  · trivial
  · exact assocLookup_insert st.leases request.resourceId _
  · trivial

/-- The `info` lease held by agent `"A"` on `"R"` in the C6 scenario. -/
def cexHolderLease : LeaseM :=
  ⟨1, "R", "A", none, Priority.info, 0, 900000, 0, 0, .idle, 0, 0, 0, none, none⟩

/-- A queue waiter `"W"` for `"R"` in the C6 scenario. -/
def cexWaiterEntry : LeaseQueueEntryM :=
  ⟨7, ⟨7, "R", "W", 1⟩, ⟨"W", Priority.coordinate, none, none⟩, 0, none, .queued, none⟩

/-- State with an active holder and one queue waiter on `"R"`. -/
def cexOverrideState : TerritoryStateM :=
  ⟨[("R", cexHolderLease)], [("R", [cexWaiterEntry])], 2, 8⟩

def cexOverrideRequest : LeaseRequestM :=
  ⟨"B", "R", Priority.critical, none, none, none⟩

/-- Witness for `override_quorum`: agent `"B"` at `critical` displaces
holder `"A"` at `info` on `"R"`; the lease is rewritten in place with
the new holder, tier, instants and incremented override count. -/
theorem override_quorum_witness :
    assocLookup
        (acquireLease territoryPolicyBaseline cexOverrideState
          cexOverrideRequest 50).1.leases "R"
      = some { cexHolderLease with
          holderId := "B"
          priority := Priority.critical
          grantedAt := 50
          expiresAt := 50 + territoryPolicyBaseline.defaultLeaseDurationMs
          lastHeartbeatAt := 50
          holderProgress := clamp01 ((none : Option ℚ).getD 0)
          overrideCount := 1 } :=
  (override_quorum territoryPolicyBaseline cexOverrideState cexOverrideRequest 50
    cexHolderLease (by decide) (by decide)).2.1

/-- C6 counterexample: with waiter `"W"` queued on `"R"`, the override
quorum emitted by `acquire_lease` contains only the holder's no-vote and
the requester's yes-vote — no vote by the waiter — refuting the claimed
"every queue waiter for that resource voting no". -/
theorem override_quorum_counterexample :
    ((acquireLease territoryPolicyBaseline cexOverrideState
        cexOverrideRequest 50).2.1).isOverridden = true ∧
    (assocLookup cexOverrideState.queues "R" = some [cexWaiterEntry] ∧
      cexWaiterEntry.handle.agentId = "W") ∧
    ((acquireLease territoryPolicyBaseline cexOverrideState
        cexOverrideRequest 50).2.2).all
      (fun e =>
        match e with
        | .recordQuorum _ votes _ =>
          votes.length == 2 && votes.all (fun v => v.agentId != "W")
        | _ => true) = true := by
  refine ⟨?_, ⟨?_, rfl⟩, ?_⟩ <;> decide

end Liminal
